import Mathlib

/-!
# Verification of the `xpng` PNG decoder (fingerping's `xpng.py`)

This file is a shallow embedding of the single source file `xpng.py` into
Lean 4, together with theorems settling the frozen claims about it.

Modelling conventions:

* A Python byte string is a `List Nat`; genuine inputs have all entries
  `< 256` (stated as a hypothesis where it matters).
* Fallible Python code (code that can raise `IndexError`, `struct.error`,
  `AttributeError`, `TypeError`, ...) is modelled with `Option`: `none`
  means the Python code raises.
* The external `zlib` codec is out of scope of the repository (the spec
  lists it as an external collaborator); it is abstracted as a `Codec`
  record with an `inflate` that may fail and a total `deflate`.
* Python 2 integer arithmetic on byte values is `Nat`/`Int` arithmetic with
  explicit `% 256`; the `_pixel_size` float arithmetic is modelled exactly
  in eighths of a byte (all floats occurring there are dyadic rationals
  with denominator 8 and magnitude far below 2^53, so the float arithmetic
  of the source is exact and agrees with the rational model).
* `while` loops whose variable strictly advances are written with a fuel
  parameter that provably dominates the number of iterations, so that all
  definitions compute by `decide`/`rfl`.
-/

set_option maxRecDepth 10000

/-- External inflate/deflate codec (the `zlib` collaborator of the source):
`inflate` rejects malformed streams, `deflate` is total. -/
structure Codec where
  inflate : List Nat → Option (List Nat)
  deflate : List Nat → List Nat

/-- Identity codec: `inflate` accepts everything and returns it unchanged. -/
def idCodec : Codec := ⟨fun s => some s, fun s => s⟩

/-- Codec whose `inflate` accepts exactly byte-valued streams and returns
them unchanged; used to instantiate theorems on concrete inputs. -/
def byteCodec : Codec :=
  ⟨fun s => if s.all (fun b => b < 256) then some s else none, fun s => s⟩

/-- Codec whose `inflate` rejects every stream (a source of `InflateError`). -/
def failCodec : Codec := ⟨fun _ => none, fun s => s⟩

/-- Big-endian 32-bit value of four bytes (`struct.unpack "!I"`). -/
def be32 (b0 b1 b2 b3 : Nat) : Nat := ((b0 * 256 + b1) * 256 + b2) * 256 + b3

/-- Big-endian 4-byte encoding of a 32-bit value (`struct.pack "!L"`). -/
def be32Enc (n : Nat) : List Nat :=
  [n / 16777216 % 256, n / 65536 % 256, n / 256 % 256, n % 256]

/-- Bitwise xor of the low `k` bits of two naturals, written with `%`/`/`
arithmetic only so that it computes fast in the kernel.  With `k = 32` this
is exactly the 32-bit xor used by CRC-32. -/
def xorN : Nat → Nat → Nat → Nat
  | 0, _, _ => 0
  | k + 1, a, b => (a + b) % 2 + 2 * xorN k (a / 2) (b / 2)

/-- The reflected CRC-32 polynomial. -/
def crcPoly : Nat := 0xEDB88320

/-- One bit-step of the reflected CRC-32 computation. -/
def crc32Round (c : Nat) : Nat :=
  if c % 2 = 1 then xorN 32 (c / 2) crcPoly else c / 2

/-- Iterate `crc32Round`. -/
def crcIter : Nat → Nat → Nat
  | 0, c => c
  | k + 1, c => crcIter k (crc32Round c)

/-- Absorb one byte into a CRC-32 state. -/
def crc32Byte (crc b : Nat) : Nat := crcIter 8 (xorN 32 crc (b % 256))

/-- CRC-32 of a byte string (the value of Python's `binascii.crc32`,
taken as an unsigned 32-bit number). -/
def crc32 (l : List Nat) : Nat :=
  xorN 32 (l.foldl crc32Byte 0xFFFFFFFF) 0xFFFFFFFF

/-- A PNG chunk (`Xpng.Chunk` named tuple): size, 4-byte name, payload,
stored checksum, byte offset in the file. -/
structure Chunk where
  size : Nat
  name : List Nat
  content : List Nat
  checksum : Nat
  offset : Nat
deriving DecidableEq, Repr

/-- Chunk name `IHDR`. -/
def ihdrName : List Nat := [73, 72, 68, 82]

/-- Chunk name `IDAT`. -/
def idatName : List Nat := [73, 68, 65, 84]

/-- Chunk name `IEND`. -/
def iendName : List Nat := [73, 69, 78, 68]

/-- Chunk name `PLTE`. -/
def plteName : List Nat := [80, 76, 84, 69]

/-- `Xpng._parse_chunk`: reads `[u32 size][4-byte name]` at `offset`, then
`size` bytes of payload, then a `u32` checksum.  `struct.unpack_from`
raises when fewer bytes than requested remain, hence the two exact-length
pattern matches. -/
def parseChunk (data : List Nat) (offset : Nat) : Option Chunk :=
  match (data.drop offset).take 8 with
  | [s0, s1, s2, s3, n0, n1, n2, n3] =>
    let size := be32 s0 s1 s2 s3
    let content := (data.drop (offset + 8)).take size
    match (data.drop (offset + 8 + size)).take 4 with
    | [c0, c1, c2, c3] =>
      some ⟨size, [n0, n1, n2, n3], content, be32 c0 c1 c2 c3, offset⟩
    | _ => none
  | _ => none

/-- The loop of `Xpng._parse_chunks`: parse chunks until one named `IEND`
is consumed.  The offset strictly grows by at least 12 per step, so a fuel
of `data.length + 1` (supplied by `parseChunks`) can never be exhausted
before the loop naturally stops or a parse fails. -/
def parseChunksFrom : Nat → List Nat → Nat → Option (List Chunk)
  | 0, _, _ => none
  | fuel + 1, data, offset =>
    match parseChunk data offset with
    | none => none
    | some c =>
      if c.name = iendName then some [c]
      else
        match parseChunksFrom fuel data (offset + c.size + 12) with
        | none => none
        | some rest => some (c :: rest)

/-- `Xpng._parse_chunks`: parse all chunks starting after the 8-byte
signature. -/
def parseChunks (data : List Nat) : Option (List Chunk) :=
  parseChunksFrom (data.length + 1) data 8

/-- `Xpng._get_chunk`: the `index`-th (0-based) chunk with the given name,
or `none` when fewer matches exist. -/
def getChunk : List Chunk → List Nat → Nat → Option Chunk
  | [], _, _ => none
  | c :: rest, name, index =>
    if c.name = name then
      if index = 0 then some c else getChunk rest name (index - 1)
    else getChunk rest name index

/-- The decoder object (`Xpng.__init__`'s fields). -/
structure Xpng where
  content : List Nat
  valid : Nat
  chunks : Option (List Chunk)
  width : Nat
  height : Nat
  colorDepth : Nat
  colorType : Nat
  compressionMethod : Nat
  filterMethod : Nat
  interlaceMethod : Nat
  filtersUsed : List Nat
  pixels : List (List (List Nat))
  zlevel : Nat
deriving DecidableEq, Repr

/-- The freshly constructed object, before `_check_validity` runs. -/
def initState (content : List Nat) : Xpng :=
  ⟨content, 0, none, 0, 0, 0, 0, 0, 0, 0, [], [], 0⟩

/-- The decoder state right after `_parse_chunks` succeeded
(`valid == 3`, chunks recorded). -/
def stageParsed (content : List Nat) (cs : List Chunk) : Xpng :=
  { initState content with valid := 3, chunks := some cs }

/-- `Xpng._properties`: decode the 13-byte IHDR payload
(`struct.unpack "!IIBBBBB"` requires exactly 13 bytes). -/
def properties (x : Xpng) : Option Xpng :=
  match x.chunks with
  | none => none
  | some cs =>
    match getChunk cs ihdrName 0 with
    | none => none
    | some ihdr =>
      match ihdr.content with
      | [w0, w1, w2, w3, h0, h1, h2, h3, d, ct, cm, fm, im] =>
        some { x with
                width := be32 w0 w1 w2 w3
                height := be32 h0 h1 h2 h3
                colorDepth := d
                colorType := ct
                compressionMethod := cm
                filterMethod := fm
                interlaceMethod := im }
      | _ => none

/-- `Xpng._pixel_size`, scaled by 8 to stay in `Nat`: the pixel size in
eighths of a byte.  Indexed images (`colorType == 3`) have pixel size 1
byte; otherwise it is `(colorDepth / 8) * [1,0,3,1,2,0,4][colorType]`,
and the list access raises for `colorType ≥ 7` (hence `Option`). -/
def pixelSize8 (ct depth : Nat) : Option Nat :=
  if ct = 3 then some 8
  else
    match [1, 0, 3, 1, 2, 0, 4].get? ct with
    | none => none
    | some s => some (depth * s)

/-- `int(max(1, self._pixel_size()))`: the filtering unit in whole bytes. -/
def psInt (ps8 : Nat) : Nat := max 1 (ps8 / 8)

/-- `line_size = int(round(ps * self.width)) + 1` of `Xpng._unfilter`.
Python 2 `round` rounds half away from zero; on the nonnegative dyadic
value `ps8 * width / 8` that is `(ps8 * width + 4) / 8` in `Nat`
division (the float computation in the source is exact for all byte-sized
fields, see the header comment). -/
def lineSize (ps8 w : Nat) : Nat := (ps8 * w + 4) / 8 + 1

/-- The loop of `Xpng._decompress` collecting `IDAT` payloads by index
until `_get_chunk` returns `None`.  There are at most `cs.length` matches,
so the fuel supplied by `collectIdat` is never exhausted. -/
def collectIdatFrom : Nat → List Chunk → Nat → List Nat
  | 0, _, _ => []
  | fuel + 1, cs, index =>
    match getChunk cs idatName index with
    | none => []
    | some c => c.content ++ collectIdatFrom fuel cs (index + 1)

/-- Concatenation of all `IDAT` chunk payloads, in stream order. -/
def collectIdat (cs : List Chunk) : List Nat :=
  collectIdatFrom (cs.length + 1) cs 0

/-- `Xpng._decompress`.  Returns the updated state paired with the
inflated buffer.  Note the source assigns
`self.zlevel = ord(compressed[1]) >> 6` *before* invoking the inflate
codec: on a short stream the indexing raises with `zlevel` untouched, and
on an inflate failure the already-updated `zlevel` survives. -/
def decompress (codec : Codec) (x : Xpng) : Xpng × Option (List Nat) :=
  match x.chunks with
  | none => (x, none)
  | some cs =>
    let compressed := collectIdat cs
    match compressed.get? 1 with
    | none => (x, none)
    | some b1 =>
      let x' := { x with zlevel := b1 / 64 }
      match codec.inflate compressed with
      | none => (x', none)
      | some out => (x', some out)

/-- `Xpng._paeth`: the Paeth predictor.  `p = a + b - c` can be negative,
so the computation lives in `Int`; the result is one of `a`, `b`, `c`. -/
def paeth (a b c : Nat) : Nat :=
  let p : Int := (a : Int) + b - c
  let pa := (p - a).natAbs
  let pb := (p - b).natAbs
  let pc := (p - c).natAbs
  if pa ≤ pb ∧ pa ≤ pc then a else if pb ≤ pc then b else c

/-- The reconstruction functions `Xpng._type0 .. Xpng._type4`, dispatched
by filter type.  Python's `zip` truncates to the shortest argument, as do
`List.zipWith` and `List.zip`. -/
def applyFilter (t : Nat) (a b c x : List Nat) : List Nat :=
  match t with
  | 0 => x
  | 1 => List.zipWith (fun k0 k1 => (k0 + k1) % 256) a x
  | 2 => List.zipWith (fun k0 k1 => (k0 + k1) % 256) b x
  | 3 => (a.zip (b.zip x)).map (fun k => ((k.1 + k.2.1) / 2 + k.2.2) % 256)
  | _ => (a.zip (b.zip (c.zip x))).map
      (fun k => (paeth k.1 k.2.1 k.2.2.1 + k.2.2.2) % 256)

/-- The pixel loop of `Xpng._unfilter_line`: `k` pixels remain, `i` is the
current pixel index, `a`/`c` are the left and upper-left reconstructed
pixels.  `pr.get? i` models the `prior[i]` access (raises when out of
range). -/
def unfilterGo (t ps : Nat) (data : List Nat) (pr : List (List Nat)) :
    Nat → Nat → List Nat → List Nat → Option (List (List Nat))
  | 0, _, _, _ => some []
  | k + 1, i, a, c =>
    match pr.get? i with
    | none => none
    | some b =>
      let x := (data.drop (i * ps)).take ps
      let recon := applyFilter t a b c x
      match unfilterGo t ps data pr k (i + 1) recon b with
      | none => none
      | some rest => some (recon :: rest)

/-- `Xpng._unfilter_line`: strip the filter-type byte and reconstruct the
scanline.  An empty line raises at `line[0]`; a filter type outside 0–4
raises at `filters[type]` (modelled by the `t < 5` guard).  A `none` prior
defaults to a row of zero pixels.  (The `filters_used` bookkeeping of the
source is performed by the caller `rowLoop`, since this function is pure.) -/
def unfilterLine (ps : Nat) (line : List Nat)
    (prior : Option (List (List Nat))) : Option (List (List Nat)) :=
  match line with
  | [] => none
  | t :: data =>
    if t < 5 then
      let n := data.length / ps
      let zeropixel := List.replicate ps 0
      let pr := prior.getD (List.replicate n zeropixel)
      unfilterGo t ps data pr n 0 zeropixel zeropixel
    else none

/-- `line = filtered[y * line_size:(y + 1) * line_size]` of
`Xpng._unfilter`. -/
def engineLine (filtered : List Nat) (L y : Nat) : List Nat :=
  (filtered.drop (y * L)).take L

/-- The row loop of `Xpng._unfilter`: `k` rows remain, `y` is the current
row.  Each processed line's filter-type byte is recorded in
`filtersUsed` (the `self.filters_used.add(type)` of `_unfilter_line`,
which happens before the filter dispatch can raise), each reconstructed
row is appended to `pixels`, and the row becomes the next `prior`.  The
returned flag reports whether the loop completed. -/
def rowLoop (ps L : Nat) (filtered : List Nat) :
    Nat → Nat → Option (List (List Nat)) → Xpng → Xpng × Bool
  | 0, _, _, st => (st, true)
  | k + 1, y, prior, st =>
    match engineLine filtered L y with
    | [] => (st, false)
    | t :: data =>
      let st1 := { st with
        filtersUsed :=
          if t ∈ st.filtersUsed then st.filtersUsed else st.filtersUsed ++ [t] }
      match unfilterLine ps (t :: data) prior with
      | none => (st1, false)
      | some u =>
        rowLoop ps L filtered k (y + 1) (some u)
          { st1 with pixels := st1.pixels ++ [u] }

/-- `Xpng._unfilter`: compute the pixel size and line size, decompress,
then reconstruct all `height` rows.  The source computes `_pixel_size()`
*before* `_decompress()`, so a bad `colorType` fails without touching
`zlevel`. -/
def unfilterStage (codec : Codec) (x : Xpng) : Xpng × Bool :=
  match pixelSize8 x.colorType x.colorDepth with
  | none => (x, false)
  | some ps8 =>
    let ps := psInt ps8
    let L := lineSize ps8 x.width
    match decompress codec x with
    | (x1, none) => (x1, false)
    | (x1, some filtered) => rowLoop ps L filtered x1.height 0 none x1

/-- `Xpng.__init__` + `Xpng._check_validity`: the staged decode.  `valid`
freezes at the last completed level: 0 empty, 1 bad signature prefix,
2 chunk parsing raised, 3 header extraction raised, 4 decompression or
defiltering raised, 10 everything succeeded.  Note the source checks only
the 4-byte prefix `\x89PNG` of the 8-byte signature
(`self.content.startswith('\x89PNG')`). -/
def decode (codec : Codec) (content : List Nat) : Xpng :=
  if content = [] then initState content
  else if content.take 4 = [0x89, 0x50, 0x4E, 0x47] then
    match parseChunks content with
    | none => { initState content with valid := 2 }
    | some cs =>
      match properties (stageParsed content cs) with
      | none => stageParsed content cs
      | some xp =>
        match unfilterStage codec { xp with valid := 4 } with
        | (x5, true) => { x5 with valid := 10 }
        | (x5, false) => x5
  else { initState content with valid := 1 }

/-- The palette-decoding loop of `Xpng.getPaletteColors`: read RGB triples
at offsets `0, 3, 6, ... < size` (`xrange(0, plte.size, 3)`); any access
past the payload raises. -/
def paletteFrom (content : List Nat) (size : Nat) : Option (List (List Nat)) :=
  (List.range ((size + 2) / 3)).mapM fun j =>
    match content.get? (3 * j), content.get? (3 * j + 1),
        content.get? (3 * j + 2) with
    | some r, some g, some b => some [r, g, b]
    | _, _, _ => none

/-- `Xpng.getPaletteColors`: the colors of the `PLTE` chunk.  Raises
(`none`) when `chunks` is unset or no `PLTE` chunk exists. -/
def getPaletteColors (x : Xpng) : Option (List (List Nat)) :=
  match x.chunks with
  | none => none
  | some cs =>
    match getChunk cs plteName 0 with
    | none => none
    | some plte => paletteFrom plte.content plte.size

/-- `Xpng.getPixelRgb`.  Result encoding: `none` = the Python code raises
(pixel or palette index out of range); `some none` = Python returns
`None` (non-8-bit depth, or a color type without an RGB projection);
`some (some rgb)` = an RGB triple.  The pixel is fetched *before* the
color-type dispatch. -/
def getPixelRgb (x : Xpng) (px py : Nat) : Option (Option (List Nat)) :=
  if x.colorDepth ≠ 8 then some none
  else
    match x.pixels.get? py with
    | none => none
    | some row =>
      match row.get? px with
      | none => none
      | some value =>
        if x.colorType = 2 then some (some value)
        else if x.colorType = 6 then some (some (value.take 3))
        else if x.colorType = 3 then
          match getPaletteColors x with
          | none => none
          | some colors =>
            match value with
            | [] => none
            | idx :: _ =>
              match colors.get? idx with
              | none => none
              | some cc => some (some cc)
        else some none

/-- `Xpng.hasColor`.  Result encoding as in `getPixelRgb`: `none` = the
Python code raises, `some none` = Python returns `None` (a color type
with no branch), `some (some b)` = the boolean `b`.  For `colorType == 3`
the source tests membership in the *palette*, not among the colors of the
pixels. -/
def hasColor (x : Xpng) (color : List Nat) : Option (Option Bool) :=
  if x.colorDepth ≠ 8 then some (some false)
  else if x.colorType = 2 then
    some (some (decide (color ∈ x.pixels.flatten)))
  else if x.colorType = 6 then
    match x.pixels.flatten.mapM (fun p =>
        match p with
        | p0 :: p1 :: p2 :: _ => some [p0, p1, p2]
        | _ => none) with
    | none => none
    | some l => some (some (decide (color ∈ l)))
  else if x.colorType = 3 then
    match getPaletteColors x with
    | none => none
    | some cols => some (some (decide (color ∈ cols)))
  else some none

/-- `Xpng._chunk_checksum`: `binascii.crc32(name + content) & 0xffffffff`. -/
def chunkChecksum (name content : List Nat) : Nat :=
  crc32 (name ++ content) % 4294967296

/-- `Xpng._generate_chunk_blob`: `[u32 size][name][content][u32 checksum]`. -/
def generateChunkBlob (c : Chunk) : List Nat :=
  be32Enc c.size ++ c.name ++ c.content ++ be32Enc c.checksum

/-- `Xpng._get_chunk_blob`. -/
def getChunkBlob (x : Xpng) (name : List Nat) (index : Nat) :
    Option (List Nat) :=
  match x.chunks with
  | none => none
  | some cs =>
    match getChunk cs name index with
    | none => none
    | some c => some (generateChunkBlob c)

/-- `Xpng.generateChunk`: fresh chunk with computed checksum, offset 0. -/
def generateChunk (name data : List Nat) : Chunk :=
  ⟨data.length, name, data, chunkChecksum name data, 0⟩

/-- The `data` assembled by `Xpng.generateIdat`: every row re-filtered
with type 0 (a `\0` tag followed by the row's flattened samples). -/
def idatData (pixels : List (List (List Nat))) : List Nat :=
  (pixels.map (fun line => 0 :: line.flatten)).flatten

/-- `Xpng.generateIdat`: deflate the re-filtered rows and wrap them as a
single `IDAT` chunk blob. -/
def generateIdat (codec : Codec) (x : Xpng) : List Nat :=
  generateChunkBlob (generateChunk idatName (codec.deflate (idatData x.pixels)))

/-- The 8-byte PNG signature emitted by `Xpng.getBlob`. -/
def pngSignature : List Nat := [0x89, 0x50, 0x4E, 0x47, 0x0d, 0x0a, 0x1a, 0x0a]

/-- `Xpng.getBlob`: signature, IHDR, optional PLTE, regenerated single
IDAT, IEND.  Raises (`none`) when the IHDR or IEND chunk is absent
(`blob += None`). -/
def getBlob (codec : Codec) (x : Xpng) : Option (List Nat) :=
  match getChunkBlob x ihdrName 0 with
  | none => none
  | some ihdrB =>
    let base :=
      match getChunkBlob x plteName 0 with
      | none => pngSignature ++ ihdrB
      | some p => pngSignature ++ ihdrB ++ p
    match getChunkBlob x iendName 0 with
    | none => none
    | some iendB => some (base ++ generateIdat codec x ++ iendB)

/-- `Xpng.zlibCompression`: `11 + self.zlevel`. -/
def zlibCompression (x : Xpng) : Nat := 11 + x.zlevel

/-- Byte subtraction modulo 256 (`(x - p) % 256` on Python ints). -/
def subByte (x p : Nat) : Nat := (((x : Int) - p) % 256).toNat

/-- Modelled from the spec (§4.5): the format's *forward* filter for one
pixel — the inverse of the reconstruction `applyFilter`: subtract the
predictor of the given type from each sample, modulo 256.  This function
is spec-side (the source only implements the reconstruction direction). -/
def forwardPixel (t : Nat) (a b c x : List Nat) : List Nat :=
  match t with
  | 0 => x
  | 1 => List.zipWith (fun ak xk => subByte xk ak) a x
  | 2 => List.zipWith (fun bk xk => subByte xk bk) b x
  | 3 => (a.zip (b.zip x)).map (fun k => subByte k.2.2 ((k.1 + k.2.1) / 2))
  | _ => (a.zip (b.zip (c.zip x))).map
      (fun k => subByte k.2.2.2 (paeth k.1 k.2.1 k.2.2.1))

/-- Modelled from the spec (§4.5): forward-filter a whole row against its
prior reconstructed row, threading the left (`a`) and upper-left (`c`)
original pixels exactly as the reconstruction loop threads them. -/
def forwardLine (t : Nat) :
    List (List Nat) → List (List Nat) → List Nat → List Nat → List Nat
  | [], _, _, _ => []
  | _ :: _, [], _, _ => []
  | x :: xs, b :: bs, a, c => forwardPixel t a b c x ++ forwardLine t xs bs x b

/-- Claim-side rendering of `Xpng._pixel_size` as an exact rational:
the (possibly fractional) pixel size in bytes. -/
def pixelSizeQ (ct depth : Nat) : Option ℚ :=
  if ct = 3 then some 1
  else
    match ([1, 0, 3, 1, 2, 0, 4] : List Nat).get? ct with
    | none => none
    | some s => some ((depth * s : ℚ) / 8)

/-- Replace a chunk's offset (proof support: re-parsing a serialized chunk
recovers it up to the new file offset). -/
def setOff (c : Chunk) (o : Nat) : Chunk :=
  ⟨c.size, c.name, c.content, c.checksum, o⟩

/-- The chunk list recovered by re-parsing a concatenation of serialized
chunks laid out from offset `o` (proof support). -/
def withOffsets : List Chunk → Nat → List Chunk
  | [], _ => []
  | k :: ks, o => setOff k o :: withOffsets ks (o + k.size + 12)

/-- A chunk blob with the given name and payload and a zero checksum
(checksums are not verified by the decode path). -/
def mkChunk (name content : List Nat) : List Nat :=
  be32Enc content.length ++ name ++ content ++ [0, 0, 0, 0]

/-- 1×1 grayscale test image, bit depth 8: one scanline `[0, 7]`
(filter type 0, single sample 7). -/
def tinyGray : List Nat :=
  pngSignature ++ mkChunk ihdrName [0, 0, 0, 1, 0, 0, 0, 1, 8, 0, 0, 0, 0]
    ++ mkChunk idatName [0, 7] ++ mkChunk iendName []

/-- 2×2 RGB test image with bit depth 9: its fractional pixel size
(27/8 bytes, filtering unit 3) makes each re-encoded row one byte shorter
than `lineSize`, so the round trip misaligns. -/
def c2png : List Nat :=
  pngSignature ++ mkChunk ihdrName [0, 0, 0, 2, 0, 0, 0, 2, 9, 2, 0, 0, 0]
    ++ mkChunk idatName [0, 1, 2, 3, 4, 5, 6, 7, 0, 8, 9, 10, 11, 12, 13, 14]
    ++ mkChunk iendName []

/-- 1×1 indexed test image whose palette holds `[1,2,3]` and `[9,9,9]`
while the single pixel references palette entry 0. -/
def c6png : List Nat :=
  pngSignature ++ mkChunk ihdrName [0, 0, 0, 1, 0, 0, 0, 1, 8, 3, 0, 0, 0]
    ++ mkChunk plteName [1, 2, 3, 9, 9, 9]
    ++ mkChunk idatName [0, 0] ++ mkChunk iendName []

/-- 1×1 grayscale test image whose single scanline carries the invalid
filter-type tag 5. -/
def badFilterPng : List Nat :=
  pngSignature ++ mkChunk ihdrName [0, 0, 0, 1, 0, 0, 0, 1, 8, 0, 0, 0, 0]
    ++ mkChunk idatName [5, 7] ++ mkChunk iendName []

/-- 1×1 grayscale test image whose compressed stream's second byte is 255
(compression-level hint 3); decoded with a rejecting codec it exercises
the inflate-failure path. -/
def c10png : List Nat :=
  pngSignature ++ mkChunk ihdrName [0, 0, 0, 1, 0, 0, 0, 1, 8, 0, 0, 0, 0]
    ++ mkChunk idatName [0, 255] ++ mkChunk iendName []

/-- The chunk list of `c10png` as parsed by `parseChunks`. -/
def c10chunks : List Chunk :=
  [⟨13, ihdrName, [0, 0, 0, 1, 0, 0, 0, 1, 8, 0, 0, 0, 0], 0, 8⟩,
   ⟨2, idatName, [0, 255], 0, 33⟩,
   ⟨0, iendName, [], 0, 47⟩]

/-- The decoder state of `c10png` right after header extraction. -/
def c10header : Xpng :=
  ⟨c10png, 3, some c10chunks, 1, 1, 8, 0, 0, 0, 0, [], [], 0⟩

/-- Claim-side: `p = a + b - c` of the Paeth predictor. -/
def paethP (a b c : Nat) : Int := (a : Int) + b - c

/-- Claim-side: `pa = |p - a|` of the Paeth predictor. -/
def paethPA (a b c : Nat) : Nat := (paethP a b c - a).natAbs

/-- Claim-side: `pb = |p - b|` of the Paeth predictor. -/
def paethPB (a b c : Nat) : Nat := (paethP a b c - b).natAbs

/-- Claim-side: `pc = |p - c|` of the Paeth predictor. -/
def paethPC (a b c : Nat) : Nat := (paethP a b c - c).natAbs

/-!
## Helper lemmas
-/

theorem getChunk_filter (name : List Nat) :
    ∀ (cs : List Chunk) (i : Nat),
      getChunk cs name i = (cs.filter (fun c => c.name = name)).get? i := by
  intro cs
  induction cs with
  | nil => intro i; simp [getChunk]
  | cons c rest ih =>
    intro i
    by_cases h : c.name = name
    · cases i with
      | zero => simp [getChunk, h]
      | succ j => simp [getChunk, h, ih]
    · simp [getChunk, h, ih]

theorem getChunk_name {cs : List Chunk} {name : List Nat} {i : Nat} {c : Chunk}
    (h : getChunk cs name i = some c) : c.name = name := by
  rw [getChunk_filter] at h
  have hmem : c ∈ cs.filter (fun c => c.name = name) := List.get?_mem h
  have := List.of_mem_filter hmem
  exact of_decide_eq_true this

theorem getChunk_mem {cs : List Chunk} {name : List Nat} {i : Nat} {c : Chunk}
    (h : getChunk cs name i = some c) : c ∈ cs := by
  rw [getChunk_filter] at h
  exact List.mem_of_mem_filter (List.get?_mem h)

theorem subByte_lt (x p : Nat) : subByte x p < 256 := by
  unfold subByte; omega

theorem add_subByte_mod (p x : Nat) (hx : x < 256) :
    (p + subByte x p) % 256 = x := by
  unfold subByte; omega

/-- C5: the Paeth predictor computes `p = a + b - c`, `pa = |p-a|`,
`pb = |p-b|`, `pc = |p-c|` and returns `a` if `pa ≤ pb ∧ pa ≤ pc`, else
`b` if `pb ≤ pc`, else `c`, for all byte values; in particular `a = b = c`
yields `a`, `pa = pb < pc` yields `a`, and `pb = pc < pa` yields `b`
(tie-break order `a`, then `b`, then `c`). -/
theorem paeth_predictor_spec (a b c : Nat)
    (ha : a ≤ 255) (hb : b ≤ 255) (hc : c ≤ 255) :
    (paethPA a b c ≤ paethPB a b c ∧ paethPA a b c ≤ paethPC a b c →
      paeth a b c = a) ∧
    (¬(paethPA a b c ≤ paethPB a b c ∧ paethPA a b c ≤ paethPC a b c) →
      paethPB a b c ≤ paethPC a b c → paeth a b c = b) ∧
    (¬(paethPA a b c ≤ paethPB a b c ∧ paethPA a b c ≤ paethPC a b c) →
      ¬paethPB a b c ≤ paethPC a b c → paeth a b c = c) ∧
    (a = b → b = c → paeth a b c = a) ∧
    (paethPA a b c = paethPB a b c → paethPA a b c < paethPC a b c →
      paeth a b c = a) ∧
    (paethPB a b c = paethPC a b c → paethPB a b c < paethPA a b c →
      paeth a b c = b) := by
  unfold paeth paethPA paethPB paethPC paethP
  dsimp only
  split_ifs with h1 h2 <;>
    refine ⟨?_, ?_, ?_, ?_, ?_, ?_⟩ <;> intros <;> omega

/-- Witness for `paeth_predictor_spec`: the all-equal tie returns `a` and a
`pb = pc < pa` configuration returns `b`. -/
theorem paeth_predictor_spec_witness : paeth 5 5 5 = 5 ∧ paeth 1 4 2 = 4 :=
  ⟨(paeth_predictor_spec 5 5 5 (by decide) (by decide) (by decide)).2.2.2.1
      rfl rfl,
   (paeth_predictor_spec 1 4 2 (by decide) (by decide) (by decide)).2.2.2.2.2
      (by decide) (by decide)⟩

/-- C8: `_get_chunk` returns the `i`-th (0-based, stream order) chunk whose
type equals `name`, i.e. the `i`-th element of the name-filtered chunk
sequence, or `none` when fewer matches exist; with `index = 1` on a stream
whose matches are exactly two chunks it returns the second occurrence. -/
theorem getChunk_by_type_and_index (cs : List Chunk) (name : List Nat) (i : Nat) :
    getChunk cs name i = (cs.filter (fun c => c.name = name)).get? i ∧
    (∀ c1 c2, cs.filter (fun c => c.name = name) = [c1, c2] →
      getChunk cs name 1 = some c2) := by
  refine ⟨getChunk_filter name cs i, ?_⟩
  intro c1 c2 h
  rw [getChunk_filter, h]
  rfl

/-- Witness for `getChunk_by_type_and_index`: two `IDAT` chunks, index 1
picks the second. -/
theorem getChunk_by_type_and_index_witness :
    getChunk [⟨1, idatName, [10], 0, 8⟩, ⟨2, idatName, [20, 30], 0, 21⟩]
      idatName 1 = some ⟨2, idatName, [20, 30], 0, 21⟩ :=
  (getChunk_by_type_and_index
      [⟨1, idatName, [10], 0, 8⟩, ⟨2, idatName, [20, 30], 0, 21⟩]
      idatName 0).2 ⟨1, idatName, [10], 0, 8⟩ ⟨2, idatName, [20, 30], 0, 21⟩
      (by decide)

/-- C9 (amended): for a bit-depth-8 image whose color model is Grayscale
(0) or GrayscaleAlpha (4), `getPixelRgb` returns Python `None`
(`some none`) for every coordinate that indexes into the stored pixel
grid — only color types 2, 6 and 3 produce a triple.  (For coordinates
outside the grid the accessor raises `IndexError` instead, see the
counterexample.) -/
theorem getPixelRgb_gray_none (x : Xpng) (px py : Nat) (row : List (List Nat))
    (hd : x.colorDepth = 8) (hct : x.colorType = 0 ∨ x.colorType = 4)
    (hrow : x.pixels.get? py = some row) (hpx : px < row.length) :
    getPixelRgb x px py = some none := by
  obtain ⟨v, hv⟩ : ∃ v, row.get? px = some v :=
    ⟨row.get ⟨px, hpx⟩, List.get?_eq_get hpx⟩
  unfold getPixelRgb
  rw [if_neg (by omega)]
  simp only [hrow, hv]
  rcases hct with h | h <;> rw [h] <;> norm_num

/-- Witness for `getPixelRgb_gray_none`: the decoded 1×1 grayscale image's
only pixel has no RGB projection. -/
theorem getPixelRgb_gray_none_witness :
    getPixelRgb (decode byteCodec tinyGray) 0 0 = some none :=
  getPixelRgb_gray_none (decode byteCodec tinyGray) 0 0 [[7]]
    (by decide) (Or.inl (by decide)) (by decide) (by decide)

/-- Counterexample to C9 as stated: on the decoded 1×1 grayscale image
(bit depth 8, color type 0) the out-of-range coordinate `(1, 0)` makes
`getPixelRgb` raise `IndexError` (`none`) — the pixel is fetched before
the color-type dispatch — rather than return the claimed absent value
(`some none`). -/
theorem getPixelRgb_gray_counterexample :
    (decode byteCodec tinyGray).colorDepth = 8 ∧
    (decode byteCodec tinyGray).colorType = 0 ∧
    (decode byteCodec tinyGray).valid = 10 ∧
    getPixelRgb (decode byteCodec tinyGray) 1 0 = none ∧
    getPixelRgb (decode byteCodec tinyGray) 1 0 ≠ some none := by
  refine ⟨by decide, by decide, by decide, by decide, by decide⟩

theorem rowLoop_shape (ps L : Nat) (filtered : List Nat) :
    ∀ (k y : Nat) (prior : Option (List (List Nat))) (st : Xpng),
      ∃ pix fu, (rowLoop ps L filtered k y prior st).1 =
        { st with pixels := st.pixels ++ pix, filtersUsed := fu } := by
  intro k
  induction k with
  | zero =>
    intro y prior st
    exact ⟨[], st.filtersUsed, by simp [rowLoop]⟩
  | succ k ih =>
    intro y prior st
    cases h : engineLine filtered L y with
    | nil =>
      exact ⟨[], st.filtersUsed, by unfold rowLoop; rw [h]; simp⟩
    | cons t data =>
      cases hu : unfilterLine ps (t :: data) prior with
      | none =>
        refine ⟨[], if t ∈ st.filtersUsed then st.filtersUsed
          else st.filtersUsed ++ [t], ?_⟩
        unfold rowLoop
        rw [h]
        simp only [hu]
        simp
      | some u =>
        obtain ⟨pix, fu, hs⟩ := ih (y + 1) (some u)
          { st with
              filtersUsed := if t ∈ st.filtersUsed then st.filtersUsed
                else st.filtersUsed ++ [t]
              pixels := st.pixels ++ [u] }
        refine ⟨u :: pix, fu, ?_⟩
        unfold rowLoop
        rw [h]
        simp only [hu]
        rw [hs]
        simp

theorem rowLoop_fst_fields (ps L : Nat) (filtered : List Nat)
    (k y : Nat) (prior : Option (List (List Nat))) (st : Xpng) :
    (rowLoop ps L filtered k y prior st).1.content = st.content ∧
    (rowLoop ps L filtered k y prior st).1.valid = st.valid ∧
    (rowLoop ps L filtered k y prior st).1.chunks = st.chunks ∧
    (rowLoop ps L filtered k y prior st).1.width = st.width ∧
    (rowLoop ps L filtered k y prior st).1.height = st.height ∧
    (rowLoop ps L filtered k y prior st).1.colorDepth = st.colorDepth ∧
    (rowLoop ps L filtered k y prior st).1.colorType = st.colorType ∧
    (rowLoop ps L filtered k y prior st).1.zlevel = st.zlevel := by
  obtain ⟨pix, fu, hs⟩ := rowLoop_shape ps L filtered k y prior st
  rw [hs]
  exact ⟨rfl, rfl, rfl, rfl, rfl, rfl, rfl, rfl⟩

theorem decompress_fst_fields (codec : Codec) (x : Xpng) :
    (decompress codec x).1.content = x.content ∧
    (decompress codec x).1.valid = x.valid ∧
    (decompress codec x).1.chunks = x.chunks ∧
    (decompress codec x).1.width = x.width ∧
    (decompress codec x).1.height = x.height ∧
    (decompress codec x).1.colorDepth = x.colorDepth ∧
    (decompress codec x).1.colorType = x.colorType ∧
    (decompress codec x).1.pixels = x.pixels := by
  unfold decompress
  cases hc : x.chunks with
  | none => exact ⟨rfl, rfl, hc, rfl, rfl, rfl, rfl, rfl⟩
  | some cs =>
    dsimp only
    cases hb : (collectIdat cs).get? 1 with
    | none => exact ⟨rfl, rfl, hc, rfl, rfl, rfl, rfl, rfl⟩
    | some b1 =>
      cases hi : codec.inflate (collectIdat cs) with
      | none => exact ⟨rfl, rfl, rfl, rfl, rfl, rfl, rfl, rfl⟩
      | some out => exact ⟨rfl, rfl, rfl, rfl, rfl, rfl, rfl, rfl⟩

theorem unfilterStage_fst_fields (codec : Codec) (x : Xpng) :
    (unfilterStage codec x).1.content = x.content ∧
    (unfilterStage codec x).1.valid = x.valid ∧
    (unfilterStage codec x).1.chunks = x.chunks ∧
    (unfilterStage codec x).1.width = x.width ∧
    (unfilterStage codec x).1.height = x.height ∧
    (unfilterStage codec x).1.colorDepth = x.colorDepth ∧
    (unfilterStage codec x).1.colorType = x.colorType := by
  unfold unfilterStage
  cases h8 : pixelSize8 x.colorType x.colorDepth with
  | none => exact ⟨rfl, rfl, rfl, rfl, rfl, rfl, rfl⟩
  | some ps8 =>
    dsimp only
    have hf := decompress_fst_fields codec x
    cases hd : decompress codec x with
    | mk x1 od =>
      rw [hd] at hf
      dsimp only at hf
      obtain ⟨h1, h2, h3, h4, h5, h6, h7, h8p⟩ := hf
      cases od with
      | none => exact ⟨h1, h2, h3, h4, h5, h6, h7⟩
      | some filtered =>
        have hr := rowLoop_fst_fields (psInt ps8) (lineSize ps8 x.width)
          filtered x1.height 0 none x1
        exact ⟨hr.1.trans h1, hr.2.1.trans h2, hr.2.2.1.trans h3,
          hr.2.2.2.1.trans h4, hr.2.2.2.2.1.trans h5,
          hr.2.2.2.2.2.1.trans h6, hr.2.2.2.2.2.2.1.trans h7⟩

theorem properties_shape {x y : Xpng} (h : properties x = some y) :
    ∃ cs ihdr w0 w1 w2 w3 h0 h1 h2 h3 d ct cm fm im,
      x.chunks = some cs ∧ getChunk cs ihdrName 0 = some ihdr ∧
      ihdr.content = [w0, w1, w2, w3, h0, h1, h2, h3, d, ct, cm, fm, im] ∧
      y = { x with
              width := be32 w0 w1 w2 w3
              height := be32 h0 h1 h2 h3
              colorDepth := d
              colorType := ct
              compressionMethod := cm
              filterMethod := fm
              interlaceMethod := im } := by
  unfold properties at h
  split at h
  · exact absurd h (by simp)
  rename_i cs hcs
  split at h
  · exact absurd h (by simp)
  rename_i ihdr hihdr
  split at h
  all_goals cases h
  rename_i w0 w1 w2 w3 h0 h1 h2 h3 d ct cm fm im hcon
  exact ⟨cs, ihdr, w0, w1, w2, w3, h0, h1, h2, h3, d, ct, cm, fm, im,
    hcs, hihdr, hcon, rfl⟩

theorem unfilterStage_inflate_fail {codec : Codec} {x : Xpng}
    {cs : List Chunk} {ps8 b1 : Nat}
    (h8 : pixelSize8 x.colorType x.colorDepth = some ps8)
    (hcs : x.chunks = some cs)
    (hb1 : (collectIdat cs).get? 1 = some b1)
    (hinf : codec.inflate (collectIdat cs) = none) :
    unfilterStage codec x = ({ x with zlevel := b1 / 64 }, false) := by
  unfold unfilterStage decompress
  rw [h8, hcs]
  dsimp only
  rw [hb1]
  dsimp only
  rw [hinf]

theorem decode_after_properties {codec : Codec} {content : List Nat}
    {cs : List Chunk} {xp : Xpng}
    (hsig : content.take 4 = [0x89, 0x50, 0x4E, 0x47])
    (hparse : parseChunks content = some cs)
    (hprop : properties (stageParsed content cs) = some xp) :
    decode codec content =
      (match unfilterStage codec { xp with valid := 4 } with
        | (x5, true) => { x5 with valid := 10 }
        | (x5, false) => x5) := by
  have hne : content ≠ [] := fun he => by
    rw [he] at hsig; exact absurd hsig (by decide)
  unfold decode
  rw [if_neg hne, if_pos hsig, hparse]
  dsimp only
  rw [hprop]

/-- C7: a scanline whose filter-type tag lies outside 0–4 makes
`_unfilter_line` fail (the `filters[type]` dispatch raises `IndexError`)
rather than produce output; under the staged pipeline that error is
caught and `DecodeState` stays capped at 4. -/
theorem invalid_filter_type_fails :
    (∀ (ps t : Nat) (data : List Nat) (prior : Option (List (List Nat))),
      5 ≤ t → unfilterLine ps (t :: data) prior = none) ∧
    (∀ (codec : Codec) (content : List Nat) (cs : List Chunk) (xp st' : Xpng),
      content.take 4 = [0x89, 0x50, 0x4E, 0x47] →
      parseChunks content = some cs →
      properties (stageParsed content cs) = some xp →
      unfilterStage codec { xp with valid := 4 } = (st', false) →
      (decode codec content).valid = 4) := by
  constructor
  · intro ps t data prior ht
    unfold unfilterLine
    dsimp only
    rw [if_neg (by omega)]
  · intro codec content cs xp st' hsig hparse hprop hstage
    rw [decode_after_properties hsig hparse hprop, hstage]
    dsimp only
    have hf := unfilterStage_fst_fields codec { xp with valid := 4 }
    rw [hstage] at hf
    exact hf.2.1

/-- Witness for `invalid_filter_type_fails`: filter tag 5 on a concrete
line, and the full pipeline on `badFilterPng` stopping at `valid = 4`. -/
theorem invalid_filter_type_fails_witness :
    unfilterLine 1 [5, 7] none = none ∧
    (decode byteCodec badFilterPng).valid = 4 :=
  ⟨invalid_filter_type_fails.1 1 5 [7] none (by decide),
   invalid_filter_type_fails.2 byteCodec badFilterPng
     [⟨13, ihdrName, [0, 0, 0, 1, 0, 0, 0, 1, 8, 0, 0, 0, 0], 0, 8⟩,
      ⟨2, idatName, [5, 7], 0, 33⟩, ⟨0, iendName, [], 0, 47⟩]
     ⟨badFilterPng, 3,
      some [⟨13, ihdrName, [0, 0, 0, 1, 0, 0, 0, 1, 8, 0, 0, 0, 0], 0, 8⟩,
        ⟨2, idatName, [5, 7], 0, 33⟩, ⟨0, iendName, [], 0, 47⟩],
      1, 1, 8, 0, 0, 0, 0, [], [], 0⟩
     ⟨badFilterPng, 4,
      some [⟨13, ihdrName, [0, 0, 0, 1, 0, 0, 0, 1, 8, 0, 0, 0, 0], 0, 8⟩,
        ⟨2, idatName, [5, 7], 0, 33⟩, ⟨0, iendName, [], 0, 47⟩],
      1, 1, 8, 0, 0, 0, 0, [5], [], 0⟩
     (by decide) (by decide) (by decide) (by decide)⟩

/-- C1 (amended): constructing a decoder never fails and `valid` freezes at
the last completed stage: 0 for empty input; 1 for non-empty input not
starting with the **4-byte prefix** `\x89PNG` (the source checks only this
prefix, not the full 8-byte signature); 2 when chunk parsing raises; 3 when
header extraction raises; 4 when the decompression/defilter stage raises —
and when the inflate codec itself rejects the concatenated `IDAT` payload
the pixel grid stays empty; 10 when every stage succeeds. -/
theorem decode_staged_degradation (codec : Codec) (content : List Nat) :
    (content = [] → (decode codec content).valid = 0) ∧
    (content ≠ [] → content.take 4 ≠ [0x89, 0x50, 0x4E, 0x47] →
      (decode codec content).valid = 1) ∧
    (content.take 4 = [0x89, 0x50, 0x4E, 0x47] → parseChunks content = none →
      (decode codec content).valid = 2) ∧
    (∀ cs, content.take 4 = [0x89, 0x50, 0x4E, 0x47] →
      parseChunks content = some cs →
      properties (stageParsed content cs) = none →
      (decode codec content).valid = 3) ∧
    (∀ cs xp st', content.take 4 = [0x89, 0x50, 0x4E, 0x47] →
      parseChunks content = some cs →
      properties (stageParsed content cs) = some xp →
      unfilterStage codec { xp with valid := 4 } = (st', false) →
      (decode codec content).valid = 4) ∧
    (∀ cs xp st', content.take 4 = [0x89, 0x50, 0x4E, 0x47] →
      parseChunks content = some cs →
      properties (stageParsed content cs) = some xp →
      unfilterStage codec { xp with valid := 4 } = (st', true) →
      (decode codec content).valid = 10) ∧
    (∀ cs xp ps8 b1, content.take 4 = [0x89, 0x50, 0x4E, 0x47] →
      parseChunks content = some cs →
      properties (stageParsed content cs) = some xp →
      pixelSize8 xp.colorType xp.colorDepth = some ps8 →
      (collectIdat cs).get? 1 = some b1 →
      codec.inflate (collectIdat cs) = none →
      (decode codec content).valid = 4 ∧ (decode codec content).pixels = []) := by
  refine ⟨?_, ?_, ?_, ?_, ?_, ?_, ?_⟩
  · intro he
    rw [he]
    rfl
  · intro hne hsig
    unfold decode
    rw [if_neg hne, if_neg hsig]
  · intro hsig hparse
    have hne : content ≠ [] := fun he => by
      rw [he] at hsig; exact absurd hsig (by decide)
    unfold decode
    rw [if_neg hne, if_pos hsig, hparse]
  · intro cs hsig hparse hprop
    have hne : content ≠ [] := fun he => by
      rw [he] at hsig; exact absurd hsig (by decide)
    unfold decode
    rw [if_neg hne, if_pos hsig, hparse]
    dsimp only
    rw [hprop]
    rfl
  · intro cs xp st' hsig hparse hprop hstage
    rw [decode_after_properties hsig hparse hprop, hstage]
    dsimp only
    have hf := unfilterStage_fst_fields codec { xp with valid := 4 }
    rw [hstage] at hf
    exact hf.2.1
  · intro cs xp st' hsig hparse hprop hstage
    rw [decode_after_properties hsig hparse hprop, hstage]
  · intro cs xp ps8 b1 hsig hparse hprop h8 hb1 hinf
    obtain ⟨cs', ihdr, w0, w1, w2, w3, h0, h1, h2, h3, d, ct, cm, fm, im,
      hcs', hihdr, hcon, hxp⟩ := properties_shape hprop
    have hcs2 : cs = cs' := Option.some.inj hcs'
    subst hcs2
    have h8' : pixelSize8 ({ xp with valid := 4 } : Xpng).colorType
        ({ xp with valid := 4 } : Xpng).colorDepth = some ps8 := h8
    have hxc : ({ xp with valid := 4 } : Xpng).chunks = some cs := by
      rw [show ({ xp with valid := 4 } : Xpng).chunks = xp.chunks from rfl, hxp]
      rfl
    rw [decode_after_properties hsig hparse hprop,
      unfilterStage_inflate_fail h8' hxc hb1 hinf]
    refine ⟨rfl, ?_⟩
    show xp.pixels = []
    rw [hxp]
    rfl

/-- Witness for `decode_staged_degradation`: an empty input stops at 0, a
bad prefix at 1, and a rejecting inflate codec leaves `c10png` at 4 with an
empty pixel grid. -/
theorem decode_staged_degradation_witness :
    (decode byteCodec []).valid = 0 ∧
    (decode byteCodec [1, 2, 3]).valid = 1 ∧
    (decode failCodec c10png).valid = 4 ∧
    (decode failCodec c10png).pixels = [] :=
  ⟨(decode_staged_degradation byteCodec []).1 rfl,
   (decode_staged_degradation byteCodec [1, 2, 3]).2.1 (by decide) (by decide),
   ((decode_staged_degradation failCodec c10png).2.2.2.2.2.2 c10chunks
     c10header 8 255 (by decide) (by decide) (by decide) (by decide)
     (by decide) rfl).1,
   ((decode_staged_degradation failCodec c10png).2.2.2.2.2.2 c10chunks
     c10header 8 255 (by decide) (by decide) (by decide) (by decide)
     (by decide) rfl).2⟩

/-- Counterexample to C1 as stated: the 4-byte input `\x89PNG` is non-empty
and does not carry the 8-byte PNG signature, yet `valid` is 2, not the
claimed 1 — the source checks only `startswith('\x89PNG')`. -/
theorem decode_signature_counterexample :
    ([0x89, 0x50, 0x4E, 0x47] : List Nat) ≠ [] ∧
    ([0x89, 0x50, 0x4E, 0x47] : List Nat).take 8 ≠ pngSignature ∧
    (decode byteCodec [0x89, 0x50, 0x4E, 0x47]).valid = 2 ∧
    (decode byteCodec [0x89, 0x50, 0x4E, 0x47]).valid ≠ 1 := by
  refine ⟨by decide, by decide, by decide, by decide⟩

/-- C10: `_decompress` assigns `zlevel` (second byte of the concatenated
IDAT stream, shifted right by 6) *before* invoking inflate, so when the
inflate codec rejects the stream (`valid` capped at 4) the decoder's
`zlevel` field is already updated and observable through
`zlibCompression`; the state is not left unchanged on error. -/
theorem zlevel_updated_before_inflate (codec : Codec) (content : List Nat)
    (cs : List Chunk) (xp : Xpng) (ps8 b1 : Nat)
    (hsig : content.take 4 = [0x89, 0x50, 0x4E, 0x47])
    (hparse : parseChunks content = some cs)
    (hprop : properties (stageParsed content cs) = some xp)
    (h8 : pixelSize8 xp.colorType xp.colorDepth = some ps8)
    (hb1 : (collectIdat cs).get? 1 = some b1)
    (hinf : codec.inflate (collectIdat cs) = none) :
    (decode codec content).valid = 4 ∧
    (decode codec content).zlevel = b1 / 64 ∧
    zlibCompression (decode codec content) = 11 + b1 / 64 := by
  obtain ⟨cs', ihdr, w0, w1, w2, w3, h0, h1, h2, h3, d, ct, cm, fm, im,
    hcs', hihdr, hcon, hxp⟩ := properties_shape hprop
  have hcs2 : cs = cs' := Option.some.inj hcs'
  subst hcs2
  have h8' : pixelSize8 ({ xp with valid := 4 } : Xpng).colorType
      ({ xp with valid := 4 } : Xpng).colorDepth = some ps8 := h8
  have hxc : ({ xp with valid := 4 } : Xpng).chunks = some cs := by
    rw [show ({ xp with valid := 4 } : Xpng).chunks = xp.chunks from rfl, hxp]
    rfl
  rw [decode_after_properties hsig hparse hprop,
    unfilterStage_inflate_fail h8' hxc hb1 hinf]
  exact ⟨rfl, rfl, rfl⟩

/-- Witness for `zlevel_updated_before_inflate`: a codec rejecting every
stream still leaves `zlevel = 3` (second IDAT byte 255 shifted by 6) on
`c10png`, observable as `zlibCompression = 14`. -/
theorem zlevel_updated_before_inflate_witness :
    (decode failCodec c10png).valid = 4 ∧
    (decode failCodec c10png).zlevel = 3 ∧
    zlibCompression (decode failCodec c10png) = 14 :=
  zlevel_updated_before_inflate failCodec c10png c10chunks c10header 8 255
    (by decide) (by decide) (by decide) (by decide) (by decide) rfl

theorem floor_q_div8 (m : Nat) : ⌊(m : ℚ) / 8⌋ = ((m / 8 : Nat) : ℤ) := by
  rw [Int.floor_eq_iff]
  constructor
  · rw [le_div_iff (by norm_num)]
    exact_mod_cast (by omega : m / 8 * 8 ≤ m)
  · rw [div_lt_iff (by norm_num)]
    push_cast
    exact_mod_cast (by omega : m < (m / 8 + 1) * 8)

theorem round_q_div8 (n : Nat) :
    round ((n : ℚ) / 8) = (((n + 4) / 8 : Nat) : ℤ) := by
  rw [round_eq]
  have h : (n : ℚ) / 8 + 1 / 2 = ((n + 4 : Nat) : ℚ) / 8 := by
    push_cast; ring
  rw [h, floor_q_div8]

/-- C4 (amended): for every row `y`, the defilter engine takes the slice
`[y * lineSize, (y+1) * lineSize)` of the decompressed buffer — exactly
`lineSize` bytes when the buffer extends that far — where
`lineSize = round(pixelSizeBytes * width) + 1` with Python 2's
round-half-away-from-zero (for the nonnegative values at hand this is
`round` of Mathlib), **not** `floor(pixelSizeBytes * width) + 1` as the
claim stated. -/
theorem engine_line_boundaries (ct depth w ps8 : Nat) (q : ℚ)
    (h8 : pixelSize8 ct depth = some ps8) (hq : pixelSizeQ ct depth = some q) :
    ((lineSize ps8 w : ℤ) = round (q * w) + 1) ∧
    (∀ (filtered : List Nat) (y : Nat),
      (y + 1) * lineSize ps8 w ≤ filtered.length →
      (engineLine filtered (lineSize ps8 w) y).length = lineSize ps8 w ∧
      filtered.take ((y + 1) * lineSize ps8 w) =
        filtered.take (y * lineSize ps8 w) ++
          engineLine filtered (lineSize ps8 w) y) := by
  have hq8 : q = (ps8 : ℚ) / 8 := by
    unfold pixelSize8 at h8
    unfold pixelSizeQ at hq
    by_cases hct : ct = 3
    · rw [if_pos hct] at h8 hq
      have h1 : ps8 = 8 := (Option.some.inj h8).symm
      have h2 : q = 1 := (Option.some.inj hq).symm
      rw [h1, h2]; norm_num
    · rw [if_neg hct] at h8 hq
      revert h8 hq
      cases hg : [1, 0, 3, 1, 2, 0, 4].get? ct with
      | none =>
        intro h8 hq
        exact absurd h8 (by simp)
      | some s =>
        intro h8 hq
        dsimp only at h8 hq
        have h1 : ps8 = depth * s := (Option.some.inj h8).symm
        have h2 : q = (depth * s : ℚ) / 8 := (Option.some.inj hq).symm
        rw [h1, h2]; push_cast; ring
  constructor
  · have hqw : q * w = ((ps8 * w : Nat) : ℚ) / 8 := by
      rw [hq8]; push_cast; ring
    rw [hqw, round_q_div8]
    unfold lineSize
    push_cast
    ring
  · intro filtered y hlen
    rw [show (y + 1) * lineSize ps8 w
        = y * lineSize ps8 w + lineSize ps8 w by ring] at hlen
    constructor
    · unfold engineLine
      rw [List.length_take, List.length_drop]
      omega
    · rw [show (y + 1) * lineSize ps8 w
          = y * lineSize ps8 w + lineSize ps8 w by ring, List.take_add]
      rfl


/-- Witness for `engine_line_boundaries`: grayscale at bit depth 4
(pixel size 1/2 byte), width 5. -/
theorem engine_line_boundaries_witness :
    ((lineSize 4 5 : ℤ) = round ((1 / 2 : ℚ) * 5) + 1) ∧
    (engineLine [0, 1, 2, 3, 4, 5, 6, 7] (lineSize 4 5) 1).length
      = lineSize 4 5 :=
  ⟨(engine_line_boundaries 0 4 5 4 (1 / 2) (by decide)
      (by norm_num [pixelSizeQ])).1,
   ((engine_line_boundaries 0 4 5 4 (1 / 2) (by decide)
      (by norm_num [pixelSizeQ])).2 [0, 1, 2, 3, 4, 5, 6, 7] 1
      (by decide)).1⟩

/-- Counterexample to C4 as stated: at color type 0, bit depth 4
(pixel size 1/2 byte) and width 5 the engine's line size is
`int(round(2.5)) + 1 = 4`, while the claimed `floor(2.5) + 1` is 3. -/
theorem engine_line_floor_counterexample :
    pixelSize8 0 4 = some 4 ∧ pixelSizeQ 0 4 = some (1 / 2 : ℚ) ∧
    lineSize 4 5 = 4 ∧ (⌊(1 / 2 : ℚ) * 5⌋ + 1 : ℤ) = 3 ∧
    (lineSize 4 5 : ℤ) ≠ (⌊(1 / 2 : ℚ) * 5⌋ + 1 : ℤ) := by
  refine ⟨by decide, by norm_num [pixelSizeQ], by decide, ?_, ?_⟩
  · have h : (1 / 2 : ℚ) * 5 = 5 / 2 := by norm_num
    rw [h]
    rw [show ⌊(5 / 2 : ℚ)⌋ = 2 from by
      rw [Int.floor_eq_iff] <;> norm_num]
    norm_num
  · have h : (1 / 2 : ℚ) * 5 = 5 / 2 := by norm_num
    rw [h]
    rw [show ⌊(5 / 2 : ℚ)⌋ = 2 from by
      rw [Int.floor_eq_iff] <;> norm_num]
    decide

theorem mapM_first3 (l : List (List Nat)) (h : ∀ p ∈ l, 3 ≤ p.length) :
    (l.mapM fun p => match p with
      | p0 :: p1 :: p2 :: _ => some [p0, p1, p2]
      | _ => none) = some (l.map fun p => p.take 3) := by
  induction l with
  | nil => rfl
  | cons p rest ih =>
    have hp := h p (by simp)
    obtain ⟨p0, p1, p2, tl, rfl⟩ : ∃ p0 p1 p2 tl, p = p0 :: p1 :: p2 :: tl := by
      cases p with
      | nil => simp at hp
      | cons p0 q =>
        cases q with
        | nil => simp at hp
        | cons p1 q2 =>
          cases q2 with
          | nil => simp at hp
          | cons p2 tl => exact ⟨p0, p1, p2, tl, rfl⟩
    rw [List.mapM_cons, ih (fun p hp2 => h p (List.mem_cons_of_mem _ hp2))]
    rfl

/-- C6 (amended): `hasColor` returns `False` whenever `colorDepth ≠ 8`;
for RGB (2) it is true iff the target is among the pixels; for RGBA (6)
true iff the target is among the alpha-stripped pixels; for Indexed (3) it
tests membership of the target in the **palette** — regardless of whether
any pixel references that entry — not among the palette-dereferenced pixel
colors; for the remaining color types it returns Python `None`. -/
theorem hasColor_characterization (x : Xpng) (color : List Nat) :
    (x.colorDepth ≠ 8 → hasColor x color = some (some false)) ∧
    (x.colorDepth = 8 → x.colorType = 2 →
      hasColor x color = some (some (decide (color ∈ x.pixels.flatten)))) ∧
    (x.colorDepth = 8 → x.colorType = 6 →
      (∀ p ∈ x.pixels.flatten, 3 ≤ p.length) →
      hasColor x color =
        some (some (decide (color ∈ x.pixels.flatten.map fun p => p.take 3)))) ∧
    (x.colorDepth = 8 → x.colorType = 3 → ∀ cols,
      getPaletteColors x = some cols →
      hasColor x color = some (some (decide (color ∈ cols)))) ∧
    (x.colorDepth = 8 → x.colorType ≠ 2 → x.colorType ≠ 6 → x.colorType ≠ 3 →
      hasColor x color = some none) := by
  refine ⟨?_, ?_, ?_, ?_, ?_⟩
  · intro h
    unfold hasColor
    rw [if_pos h]
  · intro hd hct
    unfold hasColor
    rw [if_neg (by simp [hd]), if_pos hct]
  · intro hd hct h3
    unfold hasColor
    rw [if_neg (by simp [hd]), if_neg (by simp [hct]), if_pos hct,
      mapM_first3 _ h3]
  · intro hd hct cols hcols
    unfold hasColor
    rw [if_neg (by simp [hd]), if_neg (by simp [hct]),
      if_neg (by simp [hct]), if_pos hct, hcols]
  · intro hd h2 h6 h3
    unfold hasColor
    rw [if_neg (by simp [hd]), if_neg h2, if_neg h6, if_neg h3]

/-- Witness for `hasColor_characterization`: the indexed branch on the
decoded `c6png` reports `true` for the unused palette color `[9,9,9]`. -/
theorem hasColor_characterization_witness :
    hasColor (decode byteCodec c6png) [9, 9, 9] = some (some true) := by
  have h := (hasColor_characterization (decode byteCodec c6png)
      [9, 9, 9]).2.2.2.1 (by decide) (by decide) [[1, 2, 3], [9, 9, 9]]
      (by decide)
  exact h.trans (by decide)

/-- Counterexample to C6 as stated: `c6png` decodes fully; its only pixel
projects (through the palette) to `[1,2,3]`, so no pixel equals `[9,9,9]`,
yet `hasColor` reports `true` because `[9,9,9]` sits unused in the
palette — membership is tested against the palette, not the pixels. -/
theorem hasColor_palette_counterexample :
    (decode byteCodec c6png).valid = 10 ∧
    (decode byteCodec c6png).colorDepth = 8 ∧
    (decode byteCodec c6png).colorType = 3 ∧
    (decode byteCodec c6png).pixels = [[[0]]] ∧
    getPixelRgb (decode byteCodec c6png) 0 0 = some (some [1, 2, 3]) ∧
    [1, 2, 3] ≠ [9, 9, 9] ∧
    hasColor (decode byteCodec c6png) [9, 9, 9] = some (some true) := by
  refine ⟨by decide, by decide, by decide, by decide, by decide, by decide,
    by decide⟩

theorem forwardPixel_length {t : Nat} (ht : t ≤ 4) (a b c x : List Nat)
    (ha : x.length ≤ a.length) (hb : x.length ≤ b.length)
    (hc : x.length ≤ c.length) :
    (forwardPixel t a b c x).length = x.length := by
  interval_cases t <;>
    simp [forwardPixel, List.length_zipWith, List.length_zip] <;> omega

theorem zip1_inv : ∀ (a x : List Nat), (∀ v ∈ x, v < 256) →
    x.length ≤ a.length →
    List.zipWith (fun k0 k1 => (k0 + k1) % 256) a
      (List.zipWith (fun ak xk => subByte xk ak) a x) = x := by
  intro a
  induction a with
  | nil =>
    intro x hx hl
    cases x with
    | nil => rfl
    | cons x0 xs => simp at hl
  | cons a0 as ih =>
    intro x hx hl
    cases x with
    | nil => rfl
    | cons x0 xs =>
      rw [List.zipWith_cons_cons, List.zipWith_cons_cons,
        add_subByte_mod a0 x0 (hx x0 (by simp)),
        ih xs (fun v hv => hx v (by simp [hv])) (by simpa using hl)]

theorem zip3_inv : ∀ (a b x : List Nat), (∀ v ∈ x, v < 256) →
    x.length ≤ a.length → x.length ≤ b.length →
    (a.zip (b.zip ((a.zip (b.zip x)).map
        (fun k => subByte k.2.2 ((k.1 + k.2.1) / 2))))).map
      (fun k => ((k.1 + k.2.1) / 2 + k.2.2) % 256) = x := by
  intro a
  induction a with
  | nil =>
    intro b x hx hla hlb
    cases x with
    | nil => rfl
    | cons x0 xs => simp at hla
  | cons a0 as ih =>
    intro b x hx hla hlb
    cases b with
    | nil =>
      cases x with
      | nil => rfl
      | cons x0 xs => simp at hlb
    | cons b0 bs =>
      cases x with
      | nil => rfl
      | cons x0 xs =>
        simp only [List.zip_cons_cons, List.map_cons]
        rw [add_subByte_mod _ x0 (hx x0 (by simp)),
          ih bs xs (fun v hv => hx v (by simp [hv]))
            (by simpa using hla) (by simpa using hlb)]

theorem zip4_inv : ∀ (a b c x : List Nat), (∀ v ∈ x, v < 256) →
    x.length ≤ a.length → x.length ≤ b.length → x.length ≤ c.length →
    (a.zip (b.zip (c.zip ((a.zip (b.zip (c.zip x))).map
        (fun k => subByte k.2.2.2 (paeth k.1 k.2.1 k.2.2.1)))))).map
      (fun k => (paeth k.1 k.2.1 k.2.2.1 + k.2.2.2) % 256) = x := by
  intro a
  induction a with
  | nil =>
    intro b c x hx hla hlb hlc
    cases x with
    | nil => rfl
    | cons x0 xs => simp at hla
  | cons a0 as ih =>
    intro b c x hx hla hlb hlc
    cases b with
    | nil =>
      cases x with
      | nil => rfl
      | cons x0 xs => simp at hlb
    | cons b0 bs =>
      cases c with
      | nil =>
        cases x with
        | nil => rfl
        | cons x0 xs => simp at hlc
      | cons c0 cst =>
        cases x with
        | nil => rfl
        | cons x0 xs =>
          simp only [List.zip_cons_cons, List.map_cons]
          rw [add_subByte_mod _ x0 (hx x0 (by simp)),
            ih bs cst xs (fun v hv => hx v (by simp [hv]))
              (by simpa using hla) (by simpa using hlb) (by simpa using hlc)]

theorem applyFilter_forwardPixel {t : Nat} (ht : t ≤ 4) (a b c x : List Nat)
    (hx : ∀ v ∈ x, v < 256) (ha : x.length ≤ a.length)
    (hb : x.length ≤ b.length) (hc : x.length ≤ c.length) :
    applyFilter t a b c (forwardPixel t a b c x) = x := by
  interval_cases t
  · rfl
  · exact zip1_inv a x hx ha
  · exact zip1_inv b x hx hb
  · exact zip3_inv a b x hx ha hb
  · exact zip4_inv a b c x hx ha hb hc

theorem forwardLine_length {t : Nat} (ht : t ≤ 4) (ps : Nat) :
    ∀ (row pr : List (List Nat)) (a c : List Nat),
      pr.length = row.length →
      (∀ p ∈ row, p.length = ps) →
      (∀ p ∈ pr, ps ≤ p.length) →
      ps ≤ a.length → ps ≤ c.length →
      (forwardLine t row pr a c).length = row.length * ps := by
  intro row
  induction row with
  | nil =>
    intro pr a c _ _ _ _ _
    simp [forwardLine]
  | cons x xs ih =>
    intro pr a c hlen hrow hpr hha hhc
    cases pr with
    | nil => simp at hlen
    | cons b bs =>
      have hx : x.length = ps := hrow x (by simp)
      have hfp : (forwardPixel t a b c x).length = x.length :=
        forwardPixel_length ht a b c x (by omega)
          (by have := hpr b (by simp); omega) (by omega)
      simp only [forwardLine, List.length_append, hfp, hx]
      rw [ih bs x b (by simpa using hlen)
        (fun p hp => hrow p (by simp [hp]))
        (fun p hp => hpr p (by simp [hp])) (by omega)
        (by have := hpr b (by simp); omega)]
      simp only [List.length_cons]
      ring

theorem unfilterGo_forward {t ps : Nat} (ht : t ≤ 4) (hps : 0 < ps)
    (data : List Nat) (pr : List (List Nat)) :
    ∀ (rest : List (List Nat)) (i : Nat) (a c : List Nat),
      data.drop (i * ps) = forwardLine t rest (pr.drop i) a c →
      pr.length = i + rest.length →
      (∀ p ∈ rest, p.length = ps) →
      (∀ p ∈ rest, ∀ v ∈ p, v < 256) →
      (∀ p ∈ pr, ps ≤ p.length) →
      ps ≤ a.length → ps ≤ c.length →
      unfilterGo t ps data pr rest.length i a c = some rest := by
  intro rest
  induction rest with
  | nil => intro i a c _ _ _ _ _ _ _; rfl
  | cons x xs ih =>
    intro i a c hdata hlen hrowlen hbytes hpr hha hhc
    have hi : i < pr.length := by simp at hlen; omega
    have hget : pr.get? i = some (pr.get ⟨i, hi⟩) := List.get?_eq_get hi
    set b := pr.get ⟨i, hi⟩ with hbdef
    have hbmem : b ∈ pr := List.get_mem pr i hi
    have hbl : ps ≤ b.length := hpr _ hbmem
    rw [List.drop_eq_getElem_cons hi] at hdata
    simp only [forwardLine] at hdata
    have hxl : x.length = ps := hrowlen x (by simp)
    have hxb : ∀ v ∈ x, v < 256 := hbytes x (by simp)
    have hfpl : (forwardPixel t a b c x).length = ps := by
      rw [forwardPixel_length ht a b c x (by omega) (by omega) (by omega)]
      exact hxl
    have htake : (data.drop (i * ps)).take ps = forwardPixel t a b c x := by
      rw [hdata]
      exact List.take_left' hfpl
    have hdrop : data.drop ((i + 1) * ps)
        = forwardLine t xs (pr.drop (i + 1)) x b := by
      rw [show (i + 1) * ps = i * ps + ps by ring, ← List.drop_drop, hdata]
      exact List.drop_left' hfpl
    have hrec : applyFilter t a b c ((data.drop (i * ps)).take ps) = x := by
      rw [htake]
      exact applyFilter_forwardPixel ht a b c x hxb (by omega) (by omega)
        (by omega)
    rw [List.length_cons]
    unfold unfilterGo
    rw [hget]
    dsimp only
    rw [hrec, ih (i + 1) x b hdrop (by simp at hlen ⊢; omega)
      (fun p hp => hrowlen p (by simp [hp]))
      (fun p hp => hbytes p (by simp [hp])) hpr (by omega) hbl]

theorem unfilterLine_of_forwardLine (t ps : Nat) (row : List (List Nat))
    (prior : Option (List (List Nat)))
    (ht : t ≤ 4) (hps : 0 < ps)
    (hrow : ∀ p ∈ row, p.length = ps)
    (hbytes : ∀ p ∈ row, ∀ v ∈ p, v < 256)
    (hpr : ∀ pr, prior = some pr →
      pr.length = row.length ∧ ∀ p ∈ pr, ps ≤ p.length) :
    unfilterLine ps
      (t :: forwardLine t row
        (prior.getD (List.replicate row.length (List.replicate ps 0)))
        (List.replicate ps 0) (List.replicate ps 0)) prior = some row := by
  set pr := prior.getD (List.replicate row.length (List.replicate ps 0))
    with hprdef
  have hprlen : pr.length = row.length := by
    cases prior with
    | none => simp [hprdef]
    | some l => simpa [hprdef] using (hpr l rfl).1
  have hprps : ∀ p ∈ pr, ps ≤ p.length := by
    cases prior with
    | none =>
      intro p hp
      rw [hprdef] at hp
      simp only [Option.getD_none] at hp
      rw [List.eq_of_mem_replicate hp]
      simp
    | some l =>
      intro p hp
      rw [hprdef] at hp
      simp only [Option.getD_some] at hp
      exact (hpr l rfl).2 p hp
  have hdl : (forwardLine t row pr (List.replicate ps 0)
      (List.replicate ps 0)).length = row.length * ps :=
    forwardLine_length ht ps row pr _ _ hprlen hrow hprps (by simp) (by simp)
  unfold unfilterLine
  dsimp only
  rw [if_pos (by omega)]
  rw [hdl, Nat.mul_div_cancel _ hps, ← hprdef]
  exact unfilterGo_forward ht hps _ pr row 0 _ _ (by simpa using rfl)
    (by omega) hrow hbytes hprps (by simp) (by simp)

/-- C3: for every filter type 0–4, every row length and every prior row,
`_unfilter_line` is the exact left inverse of the format's forward filter:
type-tagging the forward-filtered bytes and unfiltering them recovers the
original row byte for byte, with the left (`a`) and above-left (`c`)
references starting as zero vectors at the start of the row and the above
references being zero vectors when `prior == None`. -/
theorem unfilter_left_inverse (t ps : Nat) (row : List (List Nat))
    (prior : Option (List (List Nat)))
    (ht : t ≤ 4) (hps : 0 < ps)
    (hrow : ∀ p ∈ row, p.length = ps)
    (hbytes : ∀ p ∈ row, ∀ v ∈ p, v < 256)
    (hpr : ∀ pr, prior = some pr →
      pr.length = row.length ∧ ∀ p ∈ pr, ps ≤ p.length) :
    unfilterLine ps
      (t :: forwardLine t row
        (prior.getD (List.replicate row.length (List.replicate ps 0)))
        (List.replicate ps 0) (List.replicate ps 0)) prior = some row :=
  unfilterLine_of_forwardLine t ps row prior ht hps hrow hbytes hpr

/-- Witness for `unfilter_left_inverse`: a two-pixel row under the Paeth
filter (type 4) with a nontrivial prior row round-trips exactly. -/
theorem unfilter_left_inverse_witness :
    unfilterLine 1
      (4 :: forwardLine 4 [[1], [200]] [[3], [250]] [0] [0])
      (some [[3], [250]]) = some [[1], [200]] :=
  unfilter_left_inverse 4 1 [[1], [200]] (some [[3], [250]])
    (by decide) (by decide) (by decide) (by decide)
    (fun pr h => by
      injection h with h2
      rw [← h2]
      exact ⟨by decide, by decide⟩)

theorem decode_valid10 {codec : Codec} {content : List Nat}
    (h : (decode codec content).valid = 10) :
    ∃ cs xp st', content.take 4 = [0x89, 0x50, 0x4E, 0x47] ∧
      parseChunks content = some cs ∧
      properties (stageParsed content cs) = some xp ∧
      unfilterStage codec { xp with valid := 4 } = (st', true) ∧
      decode codec content = { st' with valid := 10 } := by
  by_cases he : content = []
  · rw [he] at h
    exact absurd h (by simp [decode, initState])
  by_cases hs : content.take 4 = [0x89, 0x50, 0x4E, 0x47]
  · unfold decode at h
    rw [if_neg he, if_pos hs] at h
    revert h
    cases hp : parseChunks content with
    | none =>
      intro h
      exact absurd h (by simp [initState])
    | some cs =>
      intro h
      dsimp only at h
      revert h
      cases hpr : properties (stageParsed content cs) with
      | none =>
        intro h
        exact absurd h (by simp [stageParsed, initState])
      | some xp =>
        intro h
        dsimp only at h
        revert h
        rcases hu : unfilterStage codec { xp with valid := 4 } with ⟨st2, fl⟩
        intro h
        cases fl with
        | false =>
          dsimp only at h
          have hv := (unfilterStage_fst_fields codec { xp with valid := 4 }).2.1
          rw [hu] at hv
          rw [show ((st2, false).1).valid = st2.valid from rfl] at hv
          rw [hv] at h
          exact absurd h (by simp)
        | true =>
          refine ⟨cs, xp, st2, hs, rfl, hpr, hu, ?_⟩
          rw [decode_after_properties hs hp hpr, hu]
  · unfold decode at h
    rw [if_neg he, if_neg hs] at h
    exact absurd h (by simp [initState])

theorem parseChunk_some {data : List Nat} {off : Nat} {c : Chunk}
    (hb : ∀ v ∈ data, v < 256) (h : parseChunk data off = some c) :
    c.name.length = 4 ∧ c.content.length = c.size ∧
    c.size < 4294967296 ∧ c.checksum < 4294967296 := by
  unfold parseChunk at h
  split at h
  case _ s0 s1 s2 s3 n0 n1 n2 n3 heq8 =>
    dsimp only at h
    split at h
    case _ c0 c1 c2 c3 heq4 =>
      cases h
      have hm8 : ∀ v, v ∈ (data.drop off).take 8 → v < 256 := fun v hv =>
        hb v (List.mem_of_mem_drop (List.mem_of_mem_take hv))
      have hm4 : ∀ v, v ∈ (data.drop (off + 8 + be32 s0 s1 s2 s3)).take 4 →
          v < 256 := fun v hv =>
        hb v (List.mem_of_mem_drop (List.mem_of_mem_take hv))
      have hs0 : s0 < 256 := hm8 s0 (by rw [heq8]; simp)
      have hs1 : s1 < 256 := hm8 s1 (by rw [heq8]; simp)
      have hs2 : s2 < 256 := hm8 s2 (by rw [heq8]; simp)
      have hs3 : s3 < 256 := hm8 s3 (by rw [heq8]; simp)
      have hc0 : c0 < 256 := hm4 c0 (by rw [heq4]; simp)
      have hc1 : c1 < 256 := hm4 c1 (by rw [heq4]; simp)
      have hc2 : c2 < 256 := hm4 c2 (by rw [heq4]; simp)
      have hc3 : c3 < 256 := hm4 c3 (by rw [heq4]; simp)
      have hlen4 : ((data.drop (off + 8 + be32 s0 s1 s2 s3)).take 4).length = 4 := by
        rw [heq4]
        rfl
      rw [List.length_take, List.length_drop] at hlen4
      refine ⟨rfl, ?_, ?_, ?_⟩
      · show ((data.drop (off + 8)).take (be32 s0 s1 s2 s3)).length
          = be32 s0 s1 s2 s3
        rw [List.length_take, List.length_drop]
        omega
      · show be32 s0 s1 s2 s3 < 4294967296
        unfold be32
        omega
      · show be32 c0 c1 c2 c3 < 4294967296
        unfold be32
        omega
    · exact absurd h (by simp)
  · exact absurd h (by simp)

theorem parseChunksFrom_mem :
    ∀ {fuel : Nat} {data : List Nat} {off : Nat} {cs : List Chunk},
      parseChunksFrom fuel data off = some cs →
      ∀ c ∈ cs, ∃ o, parseChunk data o = some c := by
  intro fuel
  induction fuel with
  | zero => intro data off cs h; exact absurd h (by simp [parseChunksFrom])
  | succ fuel ih =>
    intro data off cs h
    unfold parseChunksFrom at h
    cases hp : parseChunk data off with
    | none => rw [hp] at h; exact absurd h (by simp)
    | some c0 =>
      rw [hp] at h
      dsimp only at h
      by_cases hiend : c0.name = iendName
      · rw [if_pos hiend] at h
        cases h
        intro c hc
        rw [List.mem_singleton] at hc
        exact ⟨off, hc ▸ hp⟩
      · rw [if_neg hiend] at h
        cases hrest : parseChunksFrom fuel data (off + c0.size + 12) with
        | none => rw [hrest] at h; exact absurd h (by simp)
        | some rest =>
          rw [hrest] at h
          cases h
          intro c hc
          rcases List.mem_cons.1 hc with hc | hc
          · exact ⟨off, hc ▸ hp⟩
          · exact ih hrest c hc

theorem parseChunksFrom_iend :
    ∀ {fuel : Nat} {data : List Nat} {off : Nat} {cs : List Chunk},
      parseChunksFrom fuel data off = some cs →
      ∃ c ∈ cs, c.name = iendName := by
  intro fuel
  induction fuel with
  | zero => intro data off cs h; exact absurd h (by simp [parseChunksFrom])
  | succ fuel ih =>
    intro data off cs h
    unfold parseChunksFrom at h
    cases hp : parseChunk data off with
    | none => rw [hp] at h; exact absurd h (by simp)
    | some c0 =>
      rw [hp] at h
      dsimp only at h
      by_cases hiend : c0.name = iendName
      · rw [if_pos hiend] at h
        cases h
        exact ⟨c0, by simp, hiend⟩
      · rw [if_neg hiend] at h
        cases hrest : parseChunksFrom fuel data (off + c0.size + 12) with
        | none => rw [hrest] at h; exact absurd h (by simp)
        | some rest =>
          rw [hrest] at h
          cases h
          obtain ⟨c, hc, hname⟩ := ih hrest
          exact ⟨c, by simp [hc], hname⟩

theorem applyFilter_length {t : Nat} (ht : t ≤ 4) (a b c x : List Nat)
    (ha : x.length ≤ a.length) (hb : x.length ≤ b.length)
    (hc : x.length ≤ c.length) :
    (applyFilter t a b c x).length = x.length := by
  interval_cases t <;>
    simp [applyFilter, List.length_zipWith, List.length_zip] <;> omega

theorem zipWith_mod256_lt : ∀ (a x : List Nat) (v : Nat),
    v ∈ List.zipWith (fun k0 k1 => (k0 + k1) % 256) a x → v < 256 := by
  intro a
  induction a with
  | nil => intro x v hv; simp at hv
  | cons a0 as ih =>
    intro x v hv
    cases x with
    | nil => simp at hv
    | cons x0 xs =>
      rw [List.zipWith_cons_cons] at hv
      rcases List.mem_cons.1 hv with h | h
      · rw [h]; exact Nat.mod_lt _ (by omega)
      · exact ih xs v h

theorem mem_map_mod256 {α : Type} (g : α → Nat) (l : List α) (v : Nat)
    (hv : v ∈ l.map (fun k => g k % 256)) : v < 256 := by
  rcases List.mem_map.1 hv with ⟨w, _, rfl⟩
  exact Nat.mod_lt _ (by omega)

theorem applyFilter_bytes {t : Nat} (ht : t ≤ 4) (a b c x : List Nat)
    (hx : ∀ v ∈ x, v < 256) :
    ∀ v ∈ applyFilter t a b c x, v < 256 := by
  interval_cases t
  · exact hx
  · exact fun v hv => zipWith_mod256_lt a x v hv
  · exact fun v hv => zipWith_mod256_lt b x v hv
  · exact fun v hv => mem_map_mod256 _ _ v hv
  · exact fun v hv => mem_map_mod256 _ _ v hv

theorem unfilterGo_out {t ps : Nat} (ht : t ≤ 4) (hps : 0 < ps)
    (data : List Nat) (pr : List (List Nat))
    (hdb : ∀ v ∈ data, v < 256)
    (hprl : ∀ p ∈ pr, p.length = ps) :
    ∀ (k i : Nat) (a c : List Nat) (u : List (List Nat)),
      unfilterGo t ps data pr k i a c = some u →
      (i + k) * ps ≤ data.length →
      a.length = ps → c.length = ps →
      (∀ p ∈ u, p.length = ps) ∧ (∀ p ∈ u, ∀ v ∈ p, v < 256) := by
  intro k
  induction k with
  | zero =>
    intro i a c u h _ _ _
    cases h
    exact ⟨by simp, by simp⟩
  | succ k ih =>
    intro i a c u h hcap ha hc
    unfold unfilterGo at h
    revert h
    cases hg : pr.get? i with
    | none => intro h; exact absurd h (by simp)
    | some b =>
      intro h
      dsimp only at h
      have hbl : b.length = ps := hprl b (List.get?_mem hg)
      have hxlen : ((data.drop (i * ps)).take ps).length = ps := by
        have h2 : (i + 1) * ps ≤ (i + (k + 1)) * ps :=
          Nat.mul_le_mul_right ps (by omega)
        rw [show (i + 1) * ps = i * ps + ps by ring] at h2
        rw [List.length_take, List.length_drop]
        omega
      have hxb : ∀ v ∈ (data.drop (i * ps)).take ps, v < 256 := fun v hv =>
        hdb v (List.mem_of_mem_drop (List.mem_of_mem_take hv))
      revert h
      cases hr : unfilterGo t ps data pr k (i + 1)
          (applyFilter t a b c ((data.drop (i * ps)).take ps)) b with
      | none => intro h; exact absurd h (by simp)
      | some rest =>
        intro h
        cases h
        have hreclen :
            (applyFilter t a b c ((data.drop (i * ps)).take ps)).length = ps := by
          rw [applyFilter_length ht _ _ _ _ (by omega) (by omega) (by omega)]
          exact hxlen
        have hcap2 : (i + 1 + k) * ps ≤ data.length := by
          rw [show (i + 1 + k) * ps = (i + (k + 1)) * ps by ring]
          exact hcap
        have hrest := ih (i + 1) _ b rest hr hcap2 hreclen hbl
        constructor
        · intro p hp
          rcases List.mem_cons.1 hp with h2 | h2
          · rw [h2]; exact hreclen
          · exact hrest.1 p h2
        · intro p hp
          rcases List.mem_cons.1 hp with h2 | h2
          · rw [h2]; exact applyFilter_bytes ht _ _ _ _ hxb
          · exact hrest.2 p h2

theorem unfilterLine_out {ps : Nat} (hps : 0 < ps) {line : List Nat}
    {prior : Option (List (List Nat))} {u : List (List Nat)}
    (h : unfilterLine ps line prior = some u)
    (hlb : ∀ v ∈ line, v < 256)
    (hprl : ∀ pr, prior = some pr → ∀ p ∈ pr, p.length = ps) :
    (∀ p ∈ u, p.length = ps) ∧ (∀ p ∈ u, ∀ v ∈ p, v < 256) := by
  unfold unfilterLine at h
  revert h
  cases line with
  | nil => intro h; exact absurd h (by simp)
  | cons t data =>
    intro h
    dsimp only at h
    by_cases ht : t < 5
    · rw [if_pos ht] at h
      refine unfilterGo_out (by omega : t ≤ 4) hps data _
        (fun v hv => hlb v (by simp [hv])) ?_ _ 0 _ _ u h ?_ (by simp) (by simp)
      · intro p hp
        cases prior with
        | none =>
          simp only [Option.getD_none] at hp
          rw [List.eq_of_mem_replicate hp]
          simp
        | some l =>
          simp only [Option.getD_some] at hp
          exact hprl l rfl p hp
      · simpa using Nat.div_mul_le_self data.length ps
    · rw [if_neg ht] at h
      exact absurd h (by simp)

theorem rowLoop_true_inv (ps L : Nat) (hps : 0 < ps) (filtered : List Nat)
    (hfb : ∀ v ∈ filtered, v < 256) :
    ∀ (k y : Nat) (prior : Option (List (List Nat))) (st st' : Xpng),
      rowLoop ps L filtered k y prior st = (st', true) →
      (∀ pr, prior = some pr → ∀ p ∈ pr, p.length = ps) →
      ∃ rows, st'.pixels = st.pixels ++ rows ∧ rows.length = k ∧
        (∀ r ∈ rows, ∀ p ∈ r, p.length = ps) ∧
        (∀ r ∈ rows, ∀ p ∈ r, ∀ v ∈ p, v < 256) := by
  intro k
  induction k with
  | zero =>
    intro y prior st st' h _
    have h1 : st = st' := congrArg Prod.fst h
    subst h1
    exact ⟨[], by simp, rfl, by simp, by simp⟩
  | succ k ih =>
    intro y prior st st' h hprl
    unfold rowLoop at h
    revert h
    cases he : engineLine filtered L y with
    | nil => intro h; exact absurd (congrArg Prod.snd h) (by simp)
    | cons t data =>
      intro h
      dsimp only at h
      revert h
      cases hu : unfilterLine ps (t :: data) prior with
      | none => intro h; exact absurd (congrArg Prod.snd h) (by simp)
      | some u =>
        intro h
        have hub : ∀ v ∈ (t :: data), v < 256 := by
          rw [← he]
          intro v hv
          exact hfb v (List.mem_of_mem_drop (List.mem_of_mem_take hv))
        obtain ⟨hul, hub2⟩ := unfilterLine_out hps hu hub hprl
        obtain ⟨rows', hpix, hlen, hrl, hrb⟩ := ih (y + 1) (some u) _ st' h
          (fun pr hpr2 p hp => by cases hpr2; exact hul p hp)
        refine ⟨u :: rows', ?_, by simp [hlen], ?_, ?_⟩
        · rw [hpix]
          simp
        · intro r hr
          rcases List.mem_cons.1 hr with h2 | h2
          · rw [h2]; exact hul
          · exact hrl r h2
        · intro r hr
          rcases List.mem_cons.1 hr with h2 | h2
          · rw [h2]; exact hub2
          · exact hrb r h2

theorem unfilterStage_true_inv {codec : Codec} {x st' : Xpng}
    (h : unfilterStage codec x = (st', true)) :
    ∃ ps8 cs b1 filtered,
      pixelSize8 x.colorType x.colorDepth = some ps8 ∧
      x.chunks = some cs ∧
      (collectIdat cs).get? 1 = some b1 ∧
      codec.inflate (collectIdat cs) = some filtered ∧
      rowLoop (psInt ps8) (lineSize ps8 x.width) filtered x.height 0 none
        { x with zlevel := b1 / 64 } = (st', true) := by
  unfold unfilterStage at h
  revert h
  cases h8 : pixelSize8 x.colorType x.colorDepth with
  | none => intro h; exact absurd (congrArg Prod.snd h) (by simp)
  | some ps8 =>
    intro h
    dsimp only at h
    unfold decompress at h
    revert h
    cases hc : x.chunks with
    | none => intro h; exact absurd (congrArg Prod.snd h) (by simp)
    | some cs =>
      intro h
      dsimp only at h
      revert h
      cases hb : (collectIdat cs).get? 1 with
      | none => intro h; exact absurd (congrArg Prod.snd h) (by simp)
      | some b1 =>
        intro h
        dsimp only at h
        revert h
        cases hi : codec.inflate (collectIdat cs) with
        | none => intro h; exact absurd (congrArg Prod.snd h) (by simp)
        | some filtered =>
          intro h
          dsimp only at h
          exact ⟨ps8, cs, b1, filtered, rfl, rfl, hb, hi, h⟩

theorem flatten_length_of_const {ps : Nat} :
    ∀ (r : List (List Nat)), (∀ p ∈ r, p.length = ps) →
      r.flatten.length = ps * r.length := by
  intro r
  induction r with
  | nil => intro _; simp
  | cons p rest ih =>
    intro h
    simp only [List.flatten_cons, List.length_append, List.length_cons]
    rw [h p (by simp), ih (fun q hq => h q (by simp [hq]))]
    ring

theorem forwardLine_type0 :
    ∀ (row pr : List (List Nat)) (a c : List Nat), pr.length = row.length →
      forwardLine 0 row pr a c = row.flatten := by
  intro row
  induction row with
  | nil => intro pr a c _; simp [forwardLine]
  | cons x xs ih =>
    intro pr a c h
    cases pr with
    | nil => simp at h
    | cons b bs =>
      simp only [forwardLine, List.flatten_cons]
      rw [ih bs x b (by simpa using h)]
      rfl

theorem unfilterLine_serRow {ps : Nat} (hps : 0 < ps)
    (row : List (List Nat)) (prior : Option (List (List Nat)))
    (hrow : ∀ p ∈ row, p.length = ps)
    (hbytes : ∀ p ∈ row, ∀ v ∈ p, v < 256)
    (hpr : ∀ pr, prior = some pr →
      pr.length = row.length ∧ ∀ p ∈ pr, ps ≤ p.length) :
    unfilterLine ps (0 :: row.flatten) prior = some row := by
  have h := unfilterLine_of_forwardLine 0 ps row prior (by omega) hps hrow
    hbytes hpr
  rw [forwardLine_type0 row _ _ _ ?_] at h
  · exact h
  · cases prior with
    | none => simp
    | some l => simpa using (hpr l rfl).1

theorem rowLoop_encode (ps L : Nat) (hps : 0 < ps) (payload : List Nat) :
    ∀ (rest : List (List (List Nat))) (y : Nat)
      (prior : Option (List (List Nat))) (st : Xpng),
      payload.drop (y * L) = (rest.map (fun r => 0 :: r.flatten)).flatten →
      (∀ r ∈ rest, ∀ p ∈ r, p.length = ps) →
      (∀ r ∈ rest, ∀ p ∈ r, ∀ v ∈ p, v < 256) →
      (∀ r ∈ rest, ps * r.length + 1 = L) →
      (∀ pr, prior = some pr → ∀ r ∈ rest, pr.length = r.length) →
      (∀ pr, prior = some pr → ∀ p ∈ pr, p.length = ps) →
      (rowLoop ps L payload rest.length y prior st).2 = true ∧
      (rowLoop ps L payload rest.length y prior st).1.pixels
        = st.pixels ++ rest := by
  intro rest
  induction rest with
  | nil =>
    intro y prior st _ _ _ _ _ _
    exact ⟨rfl, by simp [rowLoop]⟩
  | cons r rest' ih =>
    intro y prior st hdata hpl hpb hal hprl hprp
    simp only [List.map_cons, List.flatten_cons] at hdata
    have hrL : (0 :: r.flatten).length = L := by
      simp only [List.length_cons,
        flatten_length_of_const r (hpl r (by simp))]
      rw [← hal r (by simp)]
    have hline : engineLine payload L y = 0 :: r.flatten := by
      unfold engineLine
      rw [hdata]
      exact List.take_left' hrL
    have hdrop : payload.drop ((y + 1) * L)
        = (rest'.map (fun r => 0 :: r.flatten)).flatten := by
      rw [show (y + 1) * L = y * L + L by ring,
        ← List.drop_drop L (y * L) payload, hdata]
      exact List.drop_left' hrL
    have hu : unfilterLine ps (0 :: r.flatten) prior = some r :=
      unfilterLine_serRow hps r prior (hpl r (by simp)) (hpb r (by simp))
        (fun pr hpr => ⟨hprl pr hpr r (by simp),
          fun p hp => le_of_eq (hprp pr hpr p hp).symm⟩)
    have hans := ih (y + 1) (some r)
      { st with
          filtersUsed := if 0 ∈ st.filtersUsed then st.filtersUsed
            else st.filtersUsed ++ [0]
          pixels := st.pixels ++ [r] }
      hdrop (fun q hq => hpl q (by simp [hq]))
      (fun q hq => hpb q (by simp [hq])) (fun q hq => hal q (by simp [hq]))
      (fun pr hpr q hq => by
        cases hpr
        have h1 := hal r (by simp)
        have h2 := hal q (by simp [hq])
        exact Nat.eq_of_mul_eq_mul_left hps (by omega))
      (fun pr hpr => by cases hpr; exact hpl r (by simp))
    rw [List.length_cons]
    unfold rowLoop
    rw [hline]
    dsimp only
    rw [hu]
    dsimp only
    refine ⟨hans.1, ?_⟩
    rw [hans.2]
    simp

theorem unfilterStage_run {codec : Codec} {x : Xpng} {cs : List Chunk}
    {ps8 b1 : Nat} {filtered : List Nat}
    (h8 : pixelSize8 x.colorType x.colorDepth = some ps8)
    (hc : x.chunks = some cs)
    (hb1 : (collectIdat cs).get? 1 = some b1)
    (hi : codec.inflate (collectIdat cs) = some filtered) :
    unfilterStage codec x =
      rowLoop (psInt ps8) (lineSize ps8 x.width) filtered x.height 0 none
        { x with zlevel := b1 / 64 } := by
  unfold unfilterStage decompress
  rw [h8, hc]
  dsimp only
  rw [hb1]
  dsimp only
  rw [hi]

theorem list_length_four {l : List Nat} (h : l.length = 4) :
    ∃ a b c d, l = [a, b, c, d] := by
  rcases l with _ | ⟨a, _ | ⟨b, _ | ⟨c, _ | ⟨d, tl⟩⟩⟩⟩
  · simp at h
  · simp at h
  · simp at h
  · simp at h
  · rcases tl with _ | ⟨e, tl2⟩
    · exact ⟨a, b, c, d, rfl⟩
    · simp at h

theorem generateChunkBlob_length {c : Chunk} (hn : c.name.length = 4)
    (hcl : c.content.length = c.size) :
    (generateChunkBlob c).length = c.size + 12 := by
  simp [generateChunkBlob, be32Enc, hn, hcl]
  omega

theorem parseChunk_of_blob (pre post : List Nat) (c : Chunk)
    (hn : c.name.length = 4) (hcl : c.content.length = c.size)
    (hs : c.size < 4294967296) (hk : c.checksum < 4294967296) :
    parseChunk (pre ++ (generateChunkBlob c ++ post)) pre.length
      = some (setOff c pre.length) := by
  obtain ⟨n0, n1, n2, n3, hname⟩ := list_length_four hn
  have hdrop0 : (pre ++ (generateChunkBlob c ++ post)).drop pre.length
      = generateChunkBlob c ++ post := List.drop_left pre _
  have hgen : generateChunkBlob c ++ post
      = (be32Enc c.size ++ c.name) ++ ((c.content ++ be32Enc c.checksum) ++ post) := by
    simp [generateChunkBlob, List.append_assoc]
  have hlen8 : (be32Enc c.size ++ c.name).length = 8 := by
    simp [be32Enc, hn]
  have htake8 : ((pre ++ (generateChunkBlob c ++ post)).drop pre.length).take 8
      = be32Enc c.size ++ c.name := by
    rw [hdrop0, hgen]
    exact List.take_left' hlen8
  have hdrop8 : (pre ++ (generateChunkBlob c ++ post)).drop (pre.length + 8)
      = (c.content ++ be32Enc c.checksum) ++ post := by
    rw [← List.drop_drop 8 pre.length _, hdrop0, hgen]
    exact List.drop_left' hlen8
  have htakeC : ((pre ++ (generateChunkBlob c ++ post)).drop
      (pre.length + 8)).take c.size = c.content := by
    rw [hdrop8, List.append_assoc]
    exact List.take_left' hcl
  have hdropC : (pre ++ (generateChunkBlob c ++ post)).drop
      (pre.length + 8 + c.size) = be32Enc c.checksum ++ post := by
    rw [← List.drop_drop c.size (pre.length + 8) _, hdrop8, List.append_assoc]
    exact List.drop_left' hcl
  have htake4 : ((pre ++ (generateChunkBlob c ++ post)).drop
      (pre.length + 8 + c.size)).take 4 = be32Enc c.checksum := by
    rw [hdropC]
    exact List.take_left' (by simp [be32Enc])
  have hlit : be32Enc c.size ++ c.name
      = [c.size / 16777216 % 256, c.size / 65536 % 256, c.size / 256 % 256,
         c.size % 256, n0, n1, n2, n3] := by
    rw [hname]
    rfl
  have hbeS : be32 (c.size / 16777216 % 256) (c.size / 65536 % 256)
      (c.size / 256 % 256) (c.size % 256) = c.size := by
    unfold be32
    omega
  have hbeK : be32 (c.checksum / 16777216 % 256) (c.checksum / 65536 % 256)
      (c.checksum / 256 % 256) (c.checksum % 256) = c.checksum := by
    unfold be32
    omega
  unfold parseChunk
  rw [htake8, hlit]
  dsimp only
  rw [hbeS, htakeC, htake4, show be32Enc c.checksum
    = [c.checksum / 16777216 % 256, c.checksum / 65536 % 256,
       c.checksum / 256 % 256, c.checksum % 256] from rfl]
  dsimp only
  rw [hbeK]
  unfold setOff
  rw [hname]

theorem parseChunksFrom_blob :
    ∀ (ks : List Chunk) (pre : List Nat) (fuel : Nat),
      ks.length ≤ fuel →
      ks ≠ [] →
      (∀ k ∈ ks, k.name.length = 4 ∧ k.content.length = k.size ∧
        k.size < 4294967296 ∧ k.checksum < 4294967296) →
      (∀ k ∈ ks.dropLast, k.name ≠ iendName) →
      (∀ k, ks.getLast? = some k → k.name = iendName) →
      parseChunksFrom fuel (pre ++ (ks.map generateChunkBlob).flatten)
        pre.length = some (withOffsets ks pre.length) := by
  intro ks
  induction ks with
  | nil => intro pre fuel _ hne _ _ _; exact absurd rfl hne
  | cons k ks' ih =>
    intro pre fuel hfuel _ hinv hmid hlast
    cases fuel with
    | zero => simp at hfuel
    | succ f =>
      obtain ⟨hn, hcl, hsz, hck⟩ := hinv k (by simp)
      unfold parseChunksFrom
      simp only [List.map_cons, List.flatten_cons]
      rw [parseChunk_of_blob pre _ k hn hcl hsz hck]
      dsimp only
      have hnm : (setOff k pre.length).name = k.name := rfl
      cases ks' with
      | nil =>
        have hke : k.name = iendName := hlast k rfl
        rw [if_pos (hnm.trans hke)]
        rfl
      | cons k2 ks'' =>
        have hkne : k.name ≠ iendName := by
          apply hmid
          rw [List.dropLast_cons₂]
          simp
        rw [if_neg (fun h => hkne (hnm.symm.trans h))]
        have hblob : pre ++ (generateChunkBlob k
            ++ ((k2 :: ks'').map generateChunkBlob).flatten)
            = (pre ++ generateChunkBlob k)
              ++ ((k2 :: ks'').map generateChunkBlob).flatten := by
          simp [List.append_assoc]
        have hoff : pre.length + (setOff k pre.length).size + 12
            = (pre ++ generateChunkBlob k).length := by
          rw [List.length_append, generateChunkBlob_length hn hcl]
          show pre.length + k.size + 12 = pre.length + (k.size + 12)
          ring
        rw [hblob, hoff, ih (pre ++ generateChunkBlob k) f
          (by simpa using hfuel) (by simp)
          (fun q hq => hinv q (by simp [hq]))
          (fun q hq => hmid q (by rw [List.dropLast_cons₂]; simp [hq]))
          (fun q hq => hlast q (by rw [List.getLast?_cons_cons]; exact hq))]
        show some _ = some _
        rw [show withOffsets (k :: k2 :: ks'') pre.length
          = setOff k pre.length
            :: withOffsets (k2 :: ks'') (pre.length + k.size + 12) from rfl]
        rw [show (pre ++ generateChunkBlob k).length
          = pre.length + k.size + 12 from by
            rw [List.length_append, generateChunkBlob_length hn hcl]; ring]

theorem getChunk_exists {cs : List Chunk} {n : List Nat}
    (h : ∃ c ∈ cs, c.name = n) : ∃ c, getChunk cs n 0 = some c := by
  rw [getChunk_filter]
  obtain ⟨c, hc, hn⟩ := h
  have hmem : c ∈ cs.filter (fun c => c.name = n) :=
    List.mem_filter.2 ⟨hc, by simp [hn]⟩
  cases hf : cs.filter (fun c => c.name = n) with
  | nil => rw [hf] at hmem; simp at hmem
  | cons a l => exact ⟨a, rfl⟩

theorem getChunk_cons_of_name {c : Chunk} {rest : List Chunk} {n : List Nat}
    (h : c.name = n) : getChunk (c :: rest) n 0 = some c := by
  simp [getChunk, h]

theorem getChunk_cons_of_ne {c : Chunk} {rest : List Chunk} {n : List Nat}
    (h : c.name ≠ n) (i : Nat) :
    getChunk (c :: rest) n i = getChunk rest n i := by
  simp [getChunk, h]

theorem getChunk_cons_succ {c : Chunk} {rest : List Chunk} {n : List Nat}
    (h : c.name = n) (i : Nat) :
    getChunk (c :: rest) n (i + 1) = getChunk rest n i := by
  simp [getChunk, h]

theorem collectIdat_single {cs : List Chunk} {c : Chunk}
    (h0 : getChunk cs idatName 0 = some c)
    (h1 : getChunk cs idatName 1 = none) :
    collectIdat cs = c.content := by
  unfold collectIdat
  cases cs with
  | nil => simp [getChunk] at h0
  | cons a l =>
    show collectIdatFrom (l.length + 1 + 1) (a :: l) 0 = c.content
    unfold collectIdatFrom
    rw [h0]
    simp only [Nat.zero_add]
    unfold collectIdatFrom
    rw [h1]
    simp

theorem rowLoop_decode_pixels {ps L : Nat} {payload : List Nat} {st : Xpng}
    {rows : List (List (List Nat))} {n : Nat}
    (hn : n = rows.length)
    (h2 : (rowLoop ps L payload rows.length 0 none st).2 = true)
    (h1 : (rowLoop ps L payload rows.length 0 none st).1.pixels
      = st.pixels ++ rows)
    (hsp : st.pixels = []) :
    (match rowLoop ps L payload n 0 none st with
      | (x5, true) => { x5 with valid := 10 }
      | (x5, false) => x5).pixels = rows := by
  subst hn
  rcases hrl : rowLoop ps L payload rows.length 0 none st with ⟨stf, fl⟩
  rw [hrl] at h2 h1
  dsimp only at h2 h1
  subst h2
  dsimp only
  rw [h1, hsp]
  simp

theorem decode_of_chunks {codec : Codec} {blob : List Nat} {csN : List Chunk}
    {w0 w1 w2 w3 h0 h1 h2 h3 d ct cm fm im : Nat} {ihdrN : Chunk}
    {ps8 b1 : Nat} {payload : List Nat} {rows : List (List (List Nat))}
    (hsig : blob.take 4 = [0x89, 0x50, 0x4E, 0x47])
    (hparse : parseChunks blob = some csN)
    (hihdr : getChunk csN ihdrName 0 = some ihdrN)
    (hcon : ihdrN.content = [w0, w1, w2, w3, h0, h1, h2, h3, d, ct, cm, fm, im])
    (h8 : pixelSize8 ct d = some ps8)
    (hb1 : (collectIdat csN).get? 1 = some b1)
    (hinf : codec.inflate (collectIdat csN) = some payload)
    (hrows : rows.length = be32 h0 h1 h2 h3)
    (hdata : payload = (rows.map (fun r => 0 :: r.flatten)).flatten)
    (hpl : ∀ r ∈ rows, ∀ p ∈ r, p.length = psInt ps8)
    (hpb : ∀ r ∈ rows, ∀ p ∈ r, ∀ v ∈ p, v < 256)
    (hal : ∀ r ∈ rows,
      psInt ps8 * r.length + 1 = lineSize ps8 (be32 w0 w1 w2 w3)) :
    (decode codec blob).pixels = rows := by
  have hprop : properties (stageParsed blob csN) = some
      { stageParsed blob csN with
          width := be32 w0 w1 w2 w3
          height := be32 h0 h1 h2 h3
          colorDepth := d
          colorType := ct
          compressionMethod := cm
          filterMethod := fm
          interlaceMethod := im } := by
    unfold properties
    rw [show (stageParsed blob csN).chunks = some csN from rfl]
    dsimp only
    rw [hihdr]
    dsimp only
    rw [hcon]
    rfl
  rw [decode_after_properties hsig hparse hprop]
  rw [unfilterStage_run h8 rfl hb1 hinf]
  have hps : 0 < psInt ps8 := by unfold psInt; omega
  have henc := rowLoop_encode (psInt ps8) (lineSize ps8 (be32 w0 w1 w2 w3))
    hps payload rows 0 none
    { { stageParsed blob csN with
          width := be32 w0 w1 w2 w3
          height := be32 h0 h1 h2 h3
          colorDepth := d
          colorType := ct
          compressionMethod := cm
          filterMethod := fm
          interlaceMethod := im
          valid := 4 } with zlevel := b1 / 64 }
    (by simpa using hdata) hpl hpb hal (by simp) (by simp)
  exact rowLoop_decode_pixels hrows.symm henc.1 henc.2 rfl

/-- C2 (amended): for every image that decodes fully (`valid = 10`) and
whose rows re-serialize to exactly `lineSize` bytes each
(`psInt * rowLength + 1 = lineSize`, automatic for byte-aligned pixel
sizes), serializing with `getBlob` (filter type 0, recompress, reassemble
signature/IHDR/optional PLTE/single IDAT/IEND) and decoding the result
yields a pixel grid equal to the original, for any codec that inverts its
own deflation, produces byte-valued inflate output, and deflates this
payload to at least 2 and fewer than 2^32 bytes. -/
theorem decode_getBlob_roundTrip (codec : Codec) (content : List Nat)
    (hbytes : ∀ b ∈ content, b < 256)
    (hinfb : ∀ s out, codec.inflate s = some out → ∀ v ∈ out, v < 256)
    (hv : (decode codec content).valid = 10)
    (hdef : codec.inflate
        (codec.deflate (idatData (decode codec content).pixels))
      = some (idatData (decode codec content).pixels))
    (hlen2 : 2 ≤ (codec.deflate (idatData (decode codec content).pixels)).length)
    (hsize : (codec.deflate (idatData (decode codec content).pixels)).length
      < 4294967296)
    (halign : ∀ ps8, pixelSize8 (decode codec content).colorType
        (decode codec content).colorDepth = some ps8 →
      ∀ row ∈ (decode codec content).pixels,
        psInt ps8 * row.length + 1
          = lineSize ps8 (decode codec content).width) :
    ∃ blob, getBlob codec (decode codec content) = some blob ∧
      (decode codec blob).pixels = (decode codec content).pixels := by
  obtain ⟨cs, xp, st2, hsig, hparse, hprop, hstage, hdec⟩ := decode_valid10 hv
  obtain ⟨cs', ihdr, w0, w1, w2, w3, h0, h1, h2, h3, d, ct, cm, fm, im,
    hcs', hihdr, hcon, hxp⟩ := properties_shape hprop
  have hcseq : cs = cs' := Option.some.inj hcs'
  subst hcseq
  subst hxp
  obtain ⟨ps8, cs2, b1, filtered, h8s, hcs2, hb1s, hinfs, hrl⟩ :=
    unfilterStage_true_inv hstage
  have hcseq2 : cs = cs2 := Option.some.inj hcs2
  subst hcseq2
  have hfb : ∀ v ∈ filtered, v < 256 := hinfb _ _ hinfs
  have hps : 0 < psInt ps8 := by unfold psInt; omega
  obtain ⟨rows, hpix0, hlenRows, hrowsPs, hrowsBytes⟩ :=
    rowLoop_true_inv (psInt ps8) _ hps filtered hfb _ _ none _ _ hrl
      (fun pr hpr => by cases hpr)
  have hpix : st2.pixels = rows := by
    rw [hpix0]
    rfl
  have hxpixels : (decode codec content).pixels = rows := by
    rw [hdec]
    exact hpix
  have hxchunks : (decode codec content).chunks = some cs := by
    rw [hdec]
    have hfld := unfilterStage_fst_fields codec
      { { stageParsed content cs with
            width := be32 w0 w1 w2 w3
            height := be32 h0 h1 h2 h3
            colorDepth := d
            colorType := ct
            compressionMethod := cm
            filterMethod := fm
            interlaceMethod := im } with valid := 4 }
    rw [hstage] at hfld
    exact hfld.2.2.1
  have hxct : (decode codec content).colorType = ct := by
    rw [hdec]
    have hfld := unfilterStage_fst_fields codec
      { { stageParsed content cs with
            width := be32 w0 w1 w2 w3
            height := be32 h0 h1 h2 h3
            colorDepth := d
            colorType := ct
            compressionMethod := cm
            filterMethod := fm
            interlaceMethod := im } with valid := 4 }
    rw [hstage] at hfld
    exact hfld.2.2.2.2.2.2
  have hxd : (decode codec content).colorDepth = d := by
    rw [hdec]
    have hfld := unfilterStage_fst_fields codec
      { { stageParsed content cs with
            width := be32 w0 w1 w2 w3
            height := be32 h0 h1 h2 h3
            colorDepth := d
            colorType := ct
            compressionMethod := cm
            filterMethod := fm
            interlaceMethod := im } with valid := 4 }
    rw [hstage] at hfld
    exact hfld.2.2.2.2.2.1
  have hxw : (decode codec content).width = be32 w0 w1 w2 w3 := by
    rw [hdec]
    have hfld := unfilterStage_fst_fields codec
      { { stageParsed content cs with
            width := be32 w0 w1 w2 w3
            height := be32 h0 h1 h2 h3
            colorDepth := d
            colorType := ct
            compressionMethod := cm
            filterMethod := fm
            interlaceMethod := im } with valid := 4 }
    rw [hstage] at hfld
    exact hfld.2.2.2.1
  have h8 : pixelSize8 ct d = some ps8 := h8s
  have hal : ∀ r ∈ rows,
      psInt ps8 * r.length + 1 = lineSize ps8 (be32 w0 w1 w2 w3) := by
    intro r hr
    have := halign ps8 (by rw [hxct, hxd]; exact h8) r (by rw [hxpixels]; exact hr)
    rw [hxw] at this
    exact this
  have hchinv : ∀ c ∈ cs, c.name.length = 4 ∧ c.content.length = c.size ∧
      c.size < 4294967296 ∧ c.checksum < 4294967296 := by
    intro c hc
    obtain ⟨o, ho⟩ := parseChunksFrom_mem hparse c hc
    exact parseChunk_some hbytes ho
  obtain ⟨iendC, hiendC⟩ := getChunk_exists (parseChunksFrom_iend hparse)
  have hiname : iendC.name = iendName := getChunk_name hiendC
  have hihdrName : ihdr.name = ihdrName := getChunk_name hihdr
  have hihdrInv := hchinv ihdr (getChunk_mem hihdr)
  have hiendInv := hchinv iendC (getChunk_mem hiendC)
  have hcon13 : ihdr.content.length = 13 := by rw [hcon]; rfl
  set gI := generateChunk idatName (codec.deflate (idatData rows)) with hgI
  have hgIinv : gI.name.length = 4 ∧ gI.content.length = gI.size ∧
      gI.size < 4294967296 ∧ gI.checksum < 4294967296 := by
    refine ⟨rfl, rfl, ?_, ?_⟩
    · show (codec.deflate (idatData rows)).length < 4294967296
      rw [← hxpixels]
      exact hsize
    · show chunkChecksum idatName (codec.deflate (idatData rows)) < 4294967296
      unfold chunkChecksum
      omega
  have hb1' : ∃ v, (codec.deflate (idatData rows)).get? 1 = some v := by
    rw [← hxpixels]
    exact ⟨_, List.get?_eq_get (by omega)⟩
  obtain ⟨b1', hb1N⟩ := hb1'
  cases hplte : getChunk cs plteName 0 with
  | none =>
    refine ⟨pngSignature ++ ([ihdr, gI, iendC].map generateChunkBlob).flatten,
      ?_, ?_⟩
    · unfold getBlob getChunkBlob generateIdat
      rw [hxchunks]
      dsimp only
      rw [hihdr, hplte, hiendC]
      dsimp only
      rw [hxpixels]
      simp [List.append_assoc, hgI]
    · have hparse2 : parseChunks
          (pngSignature ++ ([ihdr, gI, iendC].map generateChunkBlob).flatten)
          = some (withOffsets [ihdr, gI, iendC] 8) := by
        unfold parseChunks
        refine parseChunksFrom_blob [ihdr, gI, iendC] pngSignature _ ?_
          (by simp) ?_ ?_ ?_
        · simp [pngSignature]
        · intro k hk
          simp only [List.mem_cons, List.not_mem_nil, or_false] at hk
          rcases hk with rfl | rfl | rfl
          · exact hihdrInv
          · exact hgIinv
          · exact hiendInv
        · intro k hk
          rw [show ([ihdr, gI, iendC].dropLast : List Chunk)
            = [ihdr, gI] from rfl] at hk
          simp only [List.mem_cons, List.not_mem_nil, or_false] at hk
          rcases hk with rfl | rfl
          · rw [hihdrName]; decide
          · show idatName ≠ iendName
            decide
        · intro k hk
          have h2 : iendC = k := by simpa using hk
          rw [← h2]
          exact hiname
      have hgetIhdr : getChunk (withOffsets [ihdr, gI, iendC] 8) ihdrName 0
          = some (setOff ihdr 8) :=
        getChunk_cons_of_name hihdrName
      have hcollect : collectIdat (withOffsets [ihdr, gI, iendC] 8)
          = codec.deflate (idatData rows) := by
        have hg0 : getChunk (withOffsets [ihdr, gI, iendC] 8) idatName 0
            = some (setOff gI (8 + ihdr.size + 12)) := by
          show getChunk (setOff ihdr 8 :: setOff gI (8 + ihdr.size + 12)
            :: withOffsets [iendC] (8 + ihdr.size + 12 + gI.size + 12))
            idatName 0 = _
          rw [getChunk_cons_of_ne (by rw [show (setOff ihdr 8).name
            = ihdr.name from rfl, hihdrName]; decide)]
          exact getChunk_cons_of_name rfl
        have hg1 : getChunk (withOffsets [ihdr, gI, iendC] 8) idatName 1
            = none := by
          show getChunk (setOff ihdr 8 :: setOff gI (8 + ihdr.size + 12)
            :: setOff iendC (8 + ihdr.size + 12 + gI.size + 12) :: [])
            idatName 1 = _
          rw [getChunk_cons_of_ne (by rw [show (setOff ihdr 8).name
            = ihdr.name from rfl, hihdrName]; decide)]
          refine (getChunk_cons_succ (n := idatName) (by rw [hgI]; rfl) 0).trans
            ((getChunk_cons_of_ne ?_ 0).trans rfl)
          rw [show (setOff iendC (8 + ihdr.size + 12 + gI.size + 12)).name
            = iendC.name from rfl, hiname]
          decide
        rw [collectIdat_single hg0 hg1]
        rfl
      have hb1C : (collectIdat (withOffsets [ihdr, gI, iendC] 8)).get? 1
          = some b1' := by
        rw [hcollect]
        exact hb1N
      have hinfC : codec.inflate (collectIdat (withOffsets [ihdr, gI, iendC] 8))
          = some ((rows.map (fun r => 0 :: r.flatten)).flatten) := by
        rw [hcollect]
        have hd2 := hdef
        rw [hxpixels] at hd2
        exact hd2
      rw [hxpixels]
      exact decode_of_chunks (by simp [pngSignature]) hparse2 hgetIhdr
        (show (setOff ihdr 8).content = _ from hcon) h8 hb1C hinfC
        hlenRows rfl hrowsPs hrowsBytes hal
  | some plte =>
    have hplteName : plte.name = plteName := getChunk_name hplte
    have hplteInv := hchinv plte (getChunk_mem hplte)
    refine ⟨pngSignature
      ++ ([ihdr, plte, gI, iendC].map generateChunkBlob).flatten, ?_, ?_⟩
    · unfold getBlob getChunkBlob generateIdat
      rw [hxchunks]
      dsimp only
      rw [hihdr, hplte, hiendC]
      dsimp only
      rw [hxpixels]
      simp [List.append_assoc, hgI]
    · have hparse2 : parseChunks (pngSignature
          ++ ([ihdr, plte, gI, iendC].map generateChunkBlob).flatten)
          = some (withOffsets [ihdr, plte, gI, iendC] 8) := by
        unfold parseChunks
        refine parseChunksFrom_blob [ihdr, plte, gI, iendC] pngSignature _ ?_
          (by simp) ?_ ?_ ?_
        · simp [pngSignature]
        · intro k hk
          simp only [List.mem_cons, List.not_mem_nil, or_false] at hk
          rcases hk with rfl | rfl | rfl | rfl
          · exact hihdrInv
          · exact hplteInv
          · exact hgIinv
          · exact hiendInv
        · intro k hk
          rw [show ([ihdr, plte, gI, iendC].dropLast : List Chunk)
            = [ihdr, plte, gI] from rfl] at hk
          simp only [List.mem_cons, List.not_mem_nil, or_false] at hk
          rcases hk with rfl | rfl | rfl
          · rw [hihdrName]; decide
          · rw [hplteName]; decide
          · show idatName ≠ iendName
            decide
        · intro k hk
          have h2 : iendC = k := by simpa using hk
          rw [← h2]
          exact hiname
      have hgetIhdr : getChunk (withOffsets [ihdr, plte, gI, iendC] 8)
          ihdrName 0 = some (setOff ihdr 8) :=
        getChunk_cons_of_name hihdrName
      have hcollect : collectIdat (withOffsets [ihdr, plte, gI, iendC] 8)
          = codec.deflate (idatData rows) := by
        have hg0 : getChunk (withOffsets [ihdr, plte, gI, iendC] 8) idatName 0
            = some (setOff gI (8 + ihdr.size + 12 + plte.size + 12)) := by
          show getChunk (setOff ihdr 8
            :: setOff plte (8 + ihdr.size + 12)
            :: setOff gI (8 + ihdr.size + 12 + plte.size + 12)
            :: withOffsets [iendC]
              (8 + ihdr.size + 12 + plte.size + 12 + gI.size + 12))
            idatName 0 = _
          rw [getChunk_cons_of_ne (by rw [show (setOff ihdr 8).name
            = ihdr.name from rfl, hihdrName]; decide)]
          rw [getChunk_cons_of_ne (by rw [show
            (setOff plte (8 + ihdr.size + 12)).name
            = plte.name from rfl, hplteName]; decide)]
          exact getChunk_cons_of_name rfl
        have hg1 : getChunk (withOffsets [ihdr, plte, gI, iendC] 8)
            idatName 1 = none := by
          show getChunk (setOff ihdr 8
            :: setOff plte (8 + ihdr.size + 12)
            :: setOff gI (8 + ihdr.size + 12 + plte.size + 12)
            :: setOff iendC
              (8 + ihdr.size + 12 + plte.size + 12 + gI.size + 12) :: [])
            idatName 1 = _
          rw [getChunk_cons_of_ne (by rw [show (setOff ihdr 8).name
            = ihdr.name from rfl, hihdrName]; decide)]
          rw [getChunk_cons_of_ne (by rw [show
            (setOff plte (8 + ihdr.size + 12)).name
            = plte.name from rfl, hplteName]; decide)]
          refine (getChunk_cons_succ (n := idatName) (by rw [hgI]; rfl) 0).trans
            ((getChunk_cons_of_ne ?_ 0).trans rfl)
          rw [show (setOff iendC
            (8 + ihdr.size + 12 + plte.size + 12 + gI.size + 12)).name
            = iendC.name from rfl, hiname]
          decide
        rw [collectIdat_single hg0 hg1]
        rfl
      have hb1C : (collectIdat (withOffsets [ihdr, plte, gI, iendC] 8)).get? 1
          = some b1' := by
        rw [hcollect]
        exact hb1N
      have hinfC : codec.inflate
          (collectIdat (withOffsets [ihdr, plte, gI, iendC] 8))
          = some ((rows.map (fun r => 0 :: r.flatten)).flatten) := by
        rw [hcollect]
        have hd2 := hdef
        rw [hxpixels] at hd2
        exact hd2
      rw [hxpixels]
      exact decode_of_chunks (by simp [pngSignature]) hparse2 hgetIhdr
        (show (setOff ihdr 8).content = _ from hcon) h8 hb1C hinfC
        hlenRows rfl hrowsPs hrowsBytes hal

/-- `byteCodec.inflate` only ever returns byte-valued streams. -/
theorem byteCodec_sound : ∀ s out, byteCodec.inflate s = some out →
    ∀ v ∈ out, v < 256 := by
  intro s out h v hv
  unfold byteCodec at h
  dsimp only at h
  split at h
  case isTrue hb =>
    cases h
    simpa using List.all_eq_true.1 hb v hv
  case isFalse hb =>
    cases h

/-- C2 witness: a concrete 1×1 grayscale PNG decodes to `valid = 10` and
survives the serialize/re-decode round trip with identical pixels. -/
theorem decode_getBlob_roundTrip_witness :
    ∃ blob, getBlob byteCodec (decode byteCodec tinyGray) = some blob ∧
      (decode byteCodec blob).pixels = (decode byteCodec tinyGray).pixels :=
  decode_getBlob_roundTrip byteCodec tinyGray (by decide) byteCodec_sound
    (by decide) (by decide) (by decide) (by decide)
    (fun ps8 hps8 => by
      have h8 : ps8 = 8 := by
        have he : pixelSize8 (decode byteCodec tinyGray).colorType
            (decode byteCodec tinyGray).colorDepth = some 8 := by decide
        rw [he] at hps8
        exact (Option.some.inj hps8).symm
      subst h8
      decide)

/-- C2 counterexample: the 2×2 bit-depth-9 RGB image decodes fully
(`valid = 10`), yet re-decoding its own `getBlob` serialization yields a
different pixel grid: each re-filtered row is one byte shorter than the
decoder's `lineSize` stride, so the second decode misaligns and drops data. -/
theorem roundTrip_counterexample :
    (decode byteCodec c2png).valid = 10 ∧
    (decode byteCodec
        ((getBlob byteCodec (decode byteCodec c2png)).getD [])).pixels
      ≠ (decode byteCodec c2png).pixels := by decide
